import Mathlib

/-!
Verification development for the piniafire library: a Pinia store layer that
mirrors Firestore documents and collections into local reactive state.

The definitions below are a shallow embedding of the JavaScript sources:

* `src/lib/piniafire.js` — the subscription registry (`pick` / `remove` /
  `store`), the `bind` promise machinery with its document and collection
  snapshot handlers, and `makeDocumentData`.
* `src/lib/store.js` — the store actions: `_update`, `_sync`, `_updateDoc`,
  `$arrayUpdate`, `$arrayUnion`, the one-shot initialization guard that runs
  when the store is first used, and the `Proxy` get/set handlers returned to
  callers.

JavaScript values are modelled by the inductive type `Value` (JSON-like data;
`undefined` is rendered as the absence of a binding, i.e. `Option Value`,
which matches the lodash `get`/`has` behaviour for the documents handled
here).  Lodash `get` / `set` / `has` / `isEqual` are modelled on dotted
paths already split into segment lists; `isEqual` is structural equality of
`Value`.  Promise settlement is modelled explicitly: a bind promise is a
state machine whose events are delivered snapshots and listener errors, and
whose settlement field records the unique resolution or rejection.
-/

/-- A JavaScript value as used by the library: null, booleans, numbers
(integers suffice for every behaviour verified here), strings, arrays and
plain objects with ordered fields. -/
inductive Value where
  | vNull
  | vBool (b : Bool)
  | vNum (n : Int)
  | vStr (s : String)
  | vArr (items : List Value)
  | vObj (fields : List (String × Value))
  deriving Repr

mutual

/-- Structural equality on `Value`; this is the model of lodash `isEqual`
restricted to JSON-like data. -/
def valueBEq : Value → Value → Bool
  | .vNull, .vNull => true
  | .vBool a, .vBool b => a == b
  | .vNum a, .vNum b => a == b
  | .vStr a, .vStr b => a == b
  | .vArr xs, .vArr ys => listBEq xs ys
  | .vObj xs, .vObj ys => fieldsBEq xs ys
  | _, _ => false

/-- Element-wise equality of value lists. -/
def listBEq : List Value → List Value → Bool
  | [], [] => true
  | x :: xs, y :: ys => valueBEq x y && listBEq xs ys
  | _, _ => false

/-- Entry-wise equality of object field lists. -/
def fieldsBEq : List (String × Value) → List (String × Value) → Bool
  | [], [] => true
  | (k, v) :: xs, (l, w) :: ys => k == l && valueBEq v w && fieldsBEq xs ys
  | _, _ => false

end

mutual

theorem valueBEq_refl : ∀ (v : Value), valueBEq v v = true
  | .vNull => rfl
  | .vBool _ => by simp [valueBEq]
  | .vNum _ => by simp [valueBEq]
  | .vStr _ => by simp [valueBEq]
  | .vArr xs => by simp [valueBEq, listBEq_refl xs]
  | .vObj xs => by simp [valueBEq, fieldsBEq_refl xs]

theorem listBEq_refl : ∀ (xs : List Value), listBEq xs xs = true
  | [] => rfl
  | x :: xs => by simp [listBEq, valueBEq_refl x, listBEq_refl xs]

theorem fieldsBEq_refl : ∀ (xs : List (String × Value)), fieldsBEq xs xs = true
  | [] => rfl
  | (_, v) :: xs => by simp [fieldsBEq, valueBEq_refl v, fieldsBEq_refl xs]

end

mutual

theorem valueBEq_eq : ∀ {a b : Value}, valueBEq a b = true → a = b
  | .vNull, .vNull, _ => rfl
  | .vBool _, .vBool _, h => by simpa [valueBEq] using h
  | .vNum _, .vNum _, h => by simpa [valueBEq] using h
  | .vStr _, .vStr _, h => by simpa [valueBEq] using h
  | .vArr _, .vArr _, h => by
      simp only [valueBEq] at h
      exact congrArg Value.vArr (listBEq_eq h)
  | .vObj _, .vObj _, h => by
      simp only [valueBEq] at h
      exact congrArg Value.vObj (fieldsBEq_eq h)
  | .vNull, .vBool _, h => by simp [valueBEq] at h
  | .vNull, .vNum _, h => by simp [valueBEq] at h
  | .vNull, .vStr _, h => by simp [valueBEq] at h
  | .vNull, .vArr _, h => by simp [valueBEq] at h
  | .vNull, .vObj _, h => by simp [valueBEq] at h
  | .vBool _, .vNull, h => by simp [valueBEq] at h
  | .vBool _, .vNum _, h => by simp [valueBEq] at h
  | .vBool _, .vStr _, h => by simp [valueBEq] at h
  | .vBool _, .vArr _, h => by simp [valueBEq] at h
  | .vBool _, .vObj _, h => by simp [valueBEq] at h
  | .vNum _, .vNull, h => by simp [valueBEq] at h
  | .vNum _, .vBool _, h => by simp [valueBEq] at h
  | .vNum _, .vStr _, h => by simp [valueBEq] at h
  | .vNum _, .vArr _, h => by simp [valueBEq] at h
  | .vNum _, .vObj _, h => by simp [valueBEq] at h
  | .vStr _, .vNull, h => by simp [valueBEq] at h
  | .vStr _, .vBool _, h => by simp [valueBEq] at h
  | .vStr _, .vNum _, h => by simp [valueBEq] at h
  | .vStr _, .vArr _, h => by simp [valueBEq] at h
  | .vStr _, .vObj _, h => by simp [valueBEq] at h
  | .vArr _, .vNull, h => by simp [valueBEq] at h
  | .vArr _, .vBool _, h => by simp [valueBEq] at h
  | .vArr _, .vNum _, h => by simp [valueBEq] at h
  | .vArr _, .vStr _, h => by simp [valueBEq] at h
  | .vArr _, .vObj _, h => by simp [valueBEq] at h
  | .vObj _, .vNull, h => by simp [valueBEq] at h
  | .vObj _, .vBool _, h => by simp [valueBEq] at h
  | .vObj _, .vNum _, h => by simp [valueBEq] at h
  | .vObj _, .vStr _, h => by simp [valueBEq] at h
  | .vObj _, .vArr _, h => by simp [valueBEq] at h

theorem listBEq_eq : ∀ {xs ys : List Value}, listBEq xs ys = true → xs = ys
  | [], [], _ => rfl
  | [], _ :: _, h => by simp [listBEq] at h
  | _ :: _, [], h => by simp [listBEq] at h
  | _ :: _, _ :: _, h => by
      simp only [listBEq, Bool.and_eq_true] at h
      exact congrArg₂ (· :: ·) (valueBEq_eq h.1) (listBEq_eq h.2)

theorem fieldsBEq_eq : ∀ {xs ys : List (String × Value)}, fieldsBEq xs ys = true → xs = ys
  | [], [], _ => rfl
  | [], _ :: _, h => by simp [fieldsBEq] at h
  | _ :: _, [], h => by simp [fieldsBEq] at h
  | (k, v) :: xs, (l, w) :: ys, h => by
      simp only [fieldsBEq, Bool.and_eq_true] at h
      obtain ⟨⟨h1, h2⟩, h3⟩ := h
      have hk : k = l := by simpa using h1
      have hv : v = w := valueBEq_eq h2
      have ht : xs = ys := fieldsBEq_eq h3
      simp [hk, hv, ht]

end

instance : DecidableEq Value := fun a b =>
  if h : valueBEq a b = true then .isTrue (valueBEq_eq h)
  else .isFalse (fun he => h (he ▸ valueBEq_refl a))

/-- Association lookup on an object field list (first binding wins; the
object constructors below keep keys unique). -/
def lookupField : List (String × Value) → String → Option Value
  | [], _ => none
  | (k, v) :: rest, key => if k = key then some v else lookupField rest key

/-- Assign a property on an object field list: replace the existing binding
in place (keeping its position, as JavaScript property assignment does) or
append a new binding at the end. -/
def upsertField : List (String × Value) → String → Value → List (String × Value)
  | [], key, value => [(key, value)]
  | (k, v) :: rest, key, value =>
      if k = key then (k, value) :: rest else (k, v) :: upsertField rest key value

/-- Delete a property from an object field list (the JavaScript `delete`
operator). -/
def eraseField : List (String × Value) → String → List (String × Value)
  | [], _ => []
  | (k, v) :: rest, key => if k = key then rest else (k, v) :: eraseField rest key

/-- Build an object from an entry list the way a JavaScript object literal or
spread does: a later duplicate key overwrites the value but keeps the first
occurrence position. -/
def mkObj (entries : List (String × Value)) : Value :=
  .vObj (entries.foldl (fun fs (kv : String × Value) => upsertField fs kv.1 kv.2) [])

/-- `Object.assign(target, source)`: every field of `source` overwrites the
corresponding field of `target`; fields absent from `source` are kept.  Both
arguments are objects at every use site in the library; a non-object is
returned unchanged. -/
def objAssign : Value → Value → Value
  | .vObj tfs, .vObj sfs =>
      .vObj (sfs.foldl (fun fs (kv : String × Value) => upsertField fs kv.1 kv.2) tfs)
  | t, _ => t

/-- Plain property read `obj[prop]` (no path traversal). -/
def getProp : Value → String → Option Value
  | .vObj fs, key => lookupField fs key
  | _, _ => none

/-- Plain property write `obj[prop] = v` (no path traversal); on a
non-object the write is dropped, which no modelled code path exercises. -/
def setProp : Value → String → Value → Value
  | .vObj fs, key, value => .vObj (upsertField fs key value)
  | v, _, _ => v

/-- JavaScript truthiness of a value; `undefined` is rendered by `Option`
and is falsy at the use sites. -/
def truthy : Value → Bool
  | .vNull => false
  | .vBool b => b
  | .vNum n => n != 0
  | .vStr s => s != ""
  | .vArr _ => true
  | .vObj _ => true

/-- Character-level worker for `splitPath`: split the remaining characters
on dots, accumulating the current segment in reverse. -/
def splitPathChars : List Char → List Char → List String
  | [], acc => [String.mk acc.reverse]
  | c :: rest, acc =>
      if c = '.' then String.mk acc.reverse :: splitPathChars rest []
      else splitPathChars rest (c :: acc)

/-- Split a lodash path string on dots (`"parent.child"` addresses the
`child` field of the `parent` object; numeric array indexing is not used by
the verified code paths). -/
def splitPath (s : String) : List String :=
  splitPathChars s.data []

/-- lodash `get(object, path)` on an already split path: walk the object
fields segment by segment; a missing segment yields `none` (JavaScript
`undefined`). -/
def lodashGet : Value → List String → Option Value
  | v, [] => some v
  | .vObj fs, k :: rest =>
      match lookupField fs k with
      | some u => lodashGet u rest
      | none => none
  | _, _ :: _ => none

/-- lodash `has(object, path)`: the path exists on the object.  For the
`undefined`-free documents handled here this coincides with `get` returning
a value. -/
def lodashHas (v : Value) (p : List String) : Bool :=
  (lodashGet v p).isSome

/-- lodash `set(object, path, value)` on an already split path; a missing
intermediate segment is created as an empty object (the library always
guards `set` behind `has`, so creation is never exercised), and a non-object
midway is left unchanged. -/
def lodashSet : Value → List String → Value → Value
  | _, [], nv => nv
  | .vObj fs, k :: rest, nv =>
      let child := match lookupField fs k with
        | some u => u
        | none => .vObj []
      .vObj (upsertField fs k (lodashSet child rest nv))
  | v, _ :: _, _ => v

/-! ## src/lib/piniafire.js: subscription registry -/

/-- A subscription kind, `ref.type` in the source: a single document
listener or a collection query listener. -/
inductive RefKind where
  | document
  | collection
  deriving DecidableEq, Repr

/-- A registry entry as built by `store(id, name, unsub, type)`: the owner
id, the resource name, the unsubscribe handle (rendered as an opaque
numeric token; invoking it is observed through the `unsubCalls` counter of
the bind state) and the kind. -/
structure RegItem where
  id : String
  name : String
  unsub : Nat
  kind : RefKind
  deriving DecidableEq, Repr

/-- The process-wide `unsubs` table, keyed by `getStoreKey`. -/
abbrev Registry := List (String × RegItem)

/-- `getStoreKey(id, name)`: the template literal joining owner id and
resource name with a colon. -/
def getStoreKey (id name : String) : String :=
  id ++ ":" ++ name

/-- Registry association lookup helper. -/
def regLookup : Registry → String → Option RegItem
  | [], _ => none
  | (k, it) :: rest, key => if k = key then some it else regLookup rest key

/-- Registry insertion helper (replace in place or append). -/
def regInsert : Registry → String → RegItem → Registry
  | [], key, it => [(key, it)]
  | (k, u) :: rest, key, it =>
      if k = key then (k, it) :: rest else (k, u) :: regInsert rest key it

/-- Registry deletion helper. -/
def regErase : Registry → String → Registry
  | [], _ => []
  | (k, u) :: rest, key => if k = key then rest else (k, u) :: regErase rest key

/-- `pick(id, name)`: pure lookup of the handle for the key (the source also
logs the hit). -/
def pick (reg : Registry) (id name : String) : Option RegItem :=
  regLookup reg (getStoreKey id name)

/-- `remove(id, name)`: delete the entry if present; idempotent, no error
when absent. -/
def remove (reg : Registry) (id name : String) : Registry :=
  match regLookup reg (getStoreKey id name) with
  | some _ => regErase reg (getStoreKey id name)
  | none => reg

/-- `store(id, name, unsub, type)`: register or overwrite the handle for the
key; the previous handle is not unsubscribed. -/
def storeReg (reg : Registry) (id name : String) (unsub : Nat) (kind : RefKind) : Registry :=
  regInsert reg (getStoreKey id name) ⟨id, name, unsub, kind⟩

/-! ## src/lib/piniafire.js: `bind` and its snapshot handlers -/

/-- A document snapshot as delivered by the realtime listener:
`snapshot.exists()`, `snapshot.id`, `snapshot.ref.path`,
`snapshot.metadata` and the `snapshot.data()` fields. -/
structure DocSnap where
  exist : Bool
  id : String
  path : String
  metadata : Value
  data : List (String × Value)
  deriving DecidableEq, Repr

/-- `makeDocumentData(snapshot)`: the reserved keys `__id`, `__path` and
`__metadata` followed by the spread of the snapshot data (a data field named
like a reserved key would overwrite it, exactly as the object spread does). -/
def makeDocumentData (s : DocSnap) : Value :=
  mkObj ([("__id", .vStr s.id), ("__path", .vStr s.path), ("__metadata", s.metadata)] ++ s.data)

/-- The `options` argument of `bind`: the optional `beforeUpdate` and
`afterUpdate` hooks.  Both receive the materialized document; `beforeUpdate`
exceptions are caught and logged by the handler, while an `afterUpdate`
exception escapes the snapshot handler before `_resolve` runs.  The hooks
are modelled as observers (the spec: the pre-update hook "may inspect the
incoming document"). -/
structure BindOptions where
  beforeUpdate : Option (Value → Except String Unit) := none
  afterUpdate : Option (Value → Except String Unit) := none

/-- The settlement of the bind promise: resolved with a value or rejected
with an error. -/
inductive Settled where
  | resolved (v : Value)
  | rejected (e : String)
  deriving DecidableEq, Repr

/-- The observable state of one `bind` call on a document reference: the
`isInitialised` flag, the settlement of the returned promise together with
the number of times `resolve`/`reject` took effect, the bound
`state[field]` object, the number of `$patch` merges performed, the
registry, and the number of times the unsubscribe handle was invoked. -/
structure BindState where
  isInitialised : Bool
  settled : Option Settled
  settleCount : Nat
  fieldState : Value
  patchCount : Nat
  registry : Registry
  unsubCalls : Nat
  deriving DecidableEq, Repr

/-- `_resolve(val)`: resolve the promise only when `isInitialised` is still
false, then mark it initialised. -/
def bindResolve (st : BindState) (v : Value) : BindState :=
  if st.isInitialised then st
  else { st with isInitialised := true, settled := some (.resolved v),
                 settleCount := st.settleCount + 1 }

/-- `handleError(error)`: log, remove the registry entry for
`(piniaInstance.$id, ref.id)`, and reject the promise only when it is not
yet initialised.  The unsubscribe handle is not invoked here. -/
def handleError (ownerId refId : String) (st : BindState) (e : String) : BindState :=
  let st := { st with registry := remove st.registry ownerId refId }
  if st.isInitialised then st
  else { st with isInitialised := true, settled := some (.rejected e),
                 settleCount := st.settleCount + 1 }

/-- `handleDocSnapshotUpdate(snapshot)`: a non-existent document resolves
`false` and performs no mutation; otherwise the materialized document is
(optionally) shown to `beforeUpdate` (exceptions caught), merged into
`state[field]` by `Object.assign` under `$patch`, shown to `afterUpdate`
(an exception here escapes before `_resolve`), and resolves the promise. -/
def handleDocSnapshotUpdate (opts : BindOptions) (st : BindState) (s : DocSnap) : BindState :=
  if s.exist = false then bindResolve st (.vBool false)
  else
    let doc := makeDocumentData s
    -- beforeUpdate runs first; a thrown error is caught and logged, so it
    -- leaves no trace in the observable state
    let st := { st with fieldState := objAssign st.fieldState doc,
                        patchCount := st.patchCount + 1 }
    match opts.afterUpdate with
    | some f =>
        match f doc with
        | .ok _ => bindResolve st doc
        | .error _ => st
    | none => bindResolve st doc

/-- An event delivered to a document bind: a snapshot or a listener error. -/
inductive BindEvent where
  | snap (s : DocSnap)
  | err (e : String)
  deriving DecidableEq, Repr

/-- One delivery step of a document bind. -/
def docBindStep (opts : BindOptions) (ownerId refId : String) (st : BindState) :
    BindEvent → BindState
  | .snap s => handleDocSnapshotUpdate opts st s
  | .err e => handleError ownerId refId st e

/-- The state right after `bind` returns: the promise is pending, the bound
field still holds its initial value, and `store(piniaInstance.$id, ref.id,
unsub, ref.type)` has registered the unsubscribe handle. -/
def docBindInit (reg : Registry) (ownerId refId : String) (unsub : Nat)
    (initField : Value) : BindState :=
  { isInitialised := false, settled := none, settleCount := 0,
    fieldState := initField, patchCount := 0,
    registry := storeReg reg ownerId refId unsub .document, unsubCalls := 0 }

/-- Fold a delivery sequence into the bind state. -/
def docBindRun (opts : BindOptions) (ownerId refId : String) (st : BindState)
    (events : List BindEvent) : BindState :=
  events.foldl (docBindStep opts ownerId refId) st

/-! ## src/lib/piniafire.js: collection reconciliation -/

/-- The type tag of one entry of `querySnapshot.docChanges()`. -/
inductive ChangeType where
  | added
  | modified
  | removed
  deriving DecidableEq, Repr

/-- One change of the remote change feed: its type, the changed document
snapshot (`change.doc`), and the server-reported indices. -/
structure DocChange where
  type : ChangeType
  doc : DocSnap
  newIndex : Nat
  oldIndex : Nat
  deriving DecidableEq, Repr

/-- The collection state: the `docs` array is both an ordered sequence
(`seq`, the numeric indices) and, through `docs[id] = newDoc`, a lookup from
document id to the tracked document object (`byId`).  In JavaScript both
live on the same array object. -/
structure CollState where
  seq : List Value
  byId : List (String × Value)
  deriving DecidableEq, Repr

/-- `Array.prototype.splice(start, 0, item)`: insertion clamps the start
index to the array length. -/
def spliceInsert (l : List Value) (i : Nat) (a : Value) : List Value :=
  l.insertIdx (min i l.length) a

/-- `Array.prototype.splice(start, 1, item)`: replace the element at
`start`; a start at or beyond the length deletes nothing and appends. -/
def spliceReplace (l : List Value) (i : Nat) (a : Value) : List Value :=
  if i < l.length then l.set i a else l ++ [a]

/-- `docs[newIndex] = doc`: plain index assignment; an index at the length
appends (larger indices would create holes, which no verified run
produces, and are rendered as an append). -/
def arraySetAt (l : List Value) (i : Nat) (a : Value) : List Value :=
  if i < l.length then l.set i a else l ++ [a]

/-- One `docChanges()` entry folded into the collection state, mirroring the
`switch (change.type)` of `handleCollectionSnapshotUpdate`:

* `added`, id untracked: materialize the document, record the reported index
  on its `__index` field, splice it in at `newIndex` and register it under
  its id;
* `added`, id already tracked: update the shared object's `__index` and
  write it at `newIndex` (the in-place mutation of the shared object is
  rendered by rewriting every occurrence of its old value);
* `modified`: replace the element at `newIndex` with a freshly materialized
  document (the id lookup is left untouched by the source);
* `removed`: splice out the element at `oldIndex` and delete the id key. -/
def applyDocChange (cs : CollState) (c : DocChange) : CollState :=
  match c.type with
  | .added =>
      match lookupField cs.byId c.doc.id with
      | none =>
          let newDoc := setProp (makeDocumentData c.doc) "__index" (.vNum c.newIndex)
          { seq := spliceInsert cs.seq c.newIndex newDoc,
            byId := upsertField cs.byId c.doc.id newDoc }
      | some d =>
          let d' := setProp d "__index" (.vNum c.newIndex)
          let seq := (cs.seq.map fun x => if x = d then d' else x)
          { seq := arraySetAt seq c.newIndex d',
            byId := upsertField cs.byId c.doc.id d' }
  | .modified =>
      { cs with seq := spliceReplace cs.seq c.newIndex (makeDocumentData c.doc) }
  | .removed =>
      { seq := cs.seq.eraseIdx c.oldIndex,
        byId := eraseField cs.byId c.doc.id }

/-- `querySnapshot.docChanges().forEach(...)`: the changes are applied
synchronously in delivery order. -/
def applyDocChanges (cs : CollState) (changes : List DocChange) : CollState :=
  changes.foldl applyDocChange cs

/-- The settlement of a collection bind promise: `_resolve(docs)` resolves
with the live collection state as of that moment. -/
inductive CollSettled where
  | resolved (cs : CollState)
  | rejected (e : String)
  deriving DecidableEq, Repr

/-- The observable state of one `bind` call on a collection query. -/
structure CollBindState where
  isInitialised : Bool
  settled : Option CollSettled
  settleCount : Nat
  coll : CollState
  registry : Registry
  unsubCalls : Nat
  deriving DecidableEq, Repr

/-- `handleCollectionSnapshotUpdate(querySnapshot)`: fold the change feed
into `$state.collection` (the `piniaInstance[field] = docs` line aliases the
same array onto the bound field and has no further value-level effect), then
`_resolve(docs)`. -/
def handleCollectionSnapshotUpdate (st : CollBindState) (changes : List DocChange) :
    CollBindState :=
  let st := { st with coll := applyDocChanges st.coll changes }
  if st.isInitialised then st
  else { st with isInitialised := true, settled := some (.resolved st.coll),
                 settleCount := st.settleCount + 1 }

/-- An event delivered to a collection bind. -/
inductive CollBindEvent where
  | snap (changes : List DocChange)
  | err (e : String)
  deriving DecidableEq, Repr

/-- One delivery step of a collection bind; errors behave as in the
document case (`handleError` is shared by both kinds). -/
def collBindStep (ownerId refId : String) (st : CollBindState) :
    CollBindEvent → CollBindState
  | .snap changes => handleCollectionSnapshotUpdate st changes
  | .err e =>
      let st := { st with registry := remove st.registry ownerId refId }
      if st.isInitialised then st
      else { st with isInitialised := true, settled := some (.rejected e),
                     settleCount := st.settleCount + 1 }

/-- The state right after a collection `bind` returns. -/
def collBindInit (reg : Registry) (ownerId refId : String) (unsub : Nat)
    (initColl : CollState) : CollBindState :=
  { isInitialised := false, settled := none, settleCount := 0,
    coll := initColl, registry := storeReg reg ownerId refId unsub .collection,
    unsubCalls := 0 }

/-- Fold a delivery sequence into the collection bind state. -/
def collBindRun (ownerId refId : String) (st : CollBindState)
    (events : List CollBindEvent) : CollBindState :=
  events.foldl (collBindStep ownerId refId) st

/-! ## src/lib/store.js: the mutation pipeline -/

/-- The call-time context of a store action: the store id (`this.$id`), the
schema validator (`docSchema?.validateSyncAt(path, cloned)`; a store with no
schema always succeeds), and the behaviour of the resolved
`onValidationSuccess` handler and of the awaited `this.$sync(path)` call —
either of which may throw, which the `catch` block of `_update` turns into
a validation-error report.  The `onValidationError` handler itself is
assumed total (if it threw, the promise would reject; no claim concerns
that path). -/
structure StoreCtx where
  storeId : String
  validateAt : List String → Value → Except String Unit
  onSuccessResult : Except String Unit
  syncResult : Except String Unit

/-- The handler invocations observable during one `_update` call, each
carrying the arguments the resolved handler receives through
`_runHandler`. -/
structure CallLog where
  successCalls : List (String × List String) := []
  errorCalls : List (String × List String × String) := []
  syncCalls : List (List String) := []
  deriving DecidableEq, Repr

instance {ε α : Type} [DecidableEq ε] [DecidableEq α] : DecidableEq (Except ε α)
  | .ok a, .ok b =>
      if h : a = b then .isTrue (by rw [h]) else .isFalse (by intro he; cases he; exact h rfl)
  | .error a, .error b =>
      if h : a = b then .isTrue (by rw [h]) else .isFalse (by intro he; cases he; exact h rfl)
  | .ok _, .error _ => .isFalse (by intro he; cases he)
  | .error _, .ok _ => .isFalse (by intro he; cases he)

/-- The outcome of one `_update` call: the final state of the object that
was passed in, the settlement of the returned promise (`Except.error`
renders the thrown invalid-path error, which rejects; `Except.ok` the
resolved boolean), and the handler log. -/
structure UpdateOutcome where
  object : Value
  ret : Except String Bool
  log : CallLog
  deriving DecidableEq, Repr

/-- `_update(object, path, value, shouldSync)` of `src/lib/store.js`:

1. throw when `has(object, path)` fails (the source interpolates the path
   into the message);
2. read the existing value through `this.$get(path)` — note this reads the
   store's own `this.doc`, not the passed `object`;
3. return `false` when the new value `isEqual`s that existing value;
4. otherwise validate `set(cloneDeep(object), path, value)` at `path`;
   on a validation error: log, run `_onValidationError(this.$id, path,
   message)`, resolve `false`, leaving `object` untouched;
5. on success: `set(object, path, value)`, run
   `_onValidationSuccess(this.$id, path)`, then `shouldSync &&
   await this.$sync(path)`; if the success handler or the sync throws, the
   `catch` block runs `_onValidationError` and resolves `false` with the
   write already applied; otherwise resolve `true`. -/
def _update (ctx : StoreCtx) (storeDoc object : Value) (path : List String)
    (value : Value) (shouldSync : Bool) : UpdateOutcome :=
  if lodashHas object path = false then
    { object := object, ret := .error "Cannot update track store: invalid document path",
      log := {} }
  else
    let existingValue := lodashGet storeDoc path
    if existingValue = some value then
      { object := object, ret := .ok false, log := {} }
    else
      let cloned := lodashSet object path value
      match ctx.validateAt path cloned with
      | .error e =>
          { object := object, ret := .ok false,
            log := { errorCalls := [(ctx.storeId, path, e)] } }
      | .ok _ =>
          let object' := lodashSet object path value
          match ctx.onSuccessResult with
          | .error e =>
              { object := object', ret := .ok false,
                log := { successCalls := [(ctx.storeId, path)],
                         errorCalls := [(ctx.storeId, path, e)] } }
          | .ok _ =>
              if shouldSync then
                match ctx.syncResult with
                | .error e =>
                    { object := object', ret := .ok false,
                      log := { successCalls := [(ctx.storeId, path)],
                               syncCalls := [path],
                               errorCalls := [(ctx.storeId, path, e)] } }
                | .ok _ =>
                    { object := object', ret := .ok true,
                      log := { successCalls := [(ctx.storeId, path)],
                               syncCalls := [path] } }
              else
                { object := object', ret := .ok true,
                  log := { successCalls := [(ctx.storeId, path)] } }

/-- `$update(path, value, shouldSync)`: `_update` applied to the store's own
document, so the passed object and the document read by `$get` coincide. -/
def updateAction (ctx : StoreCtx) (doc : Value) (path : List String)
    (value : Value) (shouldSync : Bool) : UpdateOutcome :=
  _update ctx doc doc path value shouldSync

/-- `$arrayUpdate(path, cb, shouldSync = true)`: read the array at `path`
from the store document; a non-array yields `false` (with a log line); a
callback result `isEqual` to the current array yields `false`; otherwise
delegate to `$update` with the callback result. -/
def arrayUpdate (ctx : StoreCtx) (doc : Value) (path : List String)
    (cb : List Value → Value) (shouldSync : Bool := true) : UpdateOutcome :=
  match lodashGet doc path with
  | some (.vArr value) =>
      let newVal := cb value
      if newVal = .vArr value then { object := doc, ret := .ok false, log := {} }
      else updateAction ctx doc path newVal shouldSync
  | _ => { object := doc, ret := .ok false, log := {} }

/-- `$arrayUnion(path, value, shouldSync)`: append `value` unless the array
already `includes` it. -/
def arrayUnion (ctx : StoreCtx) (doc : Value) (path : List String)
    (value : Value) (shouldSync : Bool := true) : UpdateOutcome :=
  arrayUpdate ctx doc path
    (fun array => if value ∈ array then .vArr array else .vArr (array ++ [value]))
    shouldSync

/-! ## src/lib/store.js: `_sync` and `_updateDoc` -/

/-- The top-level fields of a document object (used for the whole-document
branch of `_sync`, where `updateDoc` receives the document itself and
updates each of its top-level fields). -/
def objEntries : Value → List (String × Value)
  | .vObj fs => fs
  | _ => []

/-- Entry-list insertion for patch objects whose values may be `undefined`
(`none`): replace in place or append, as an object literal spread does. -/
def upsertPatch : List (String × Option Value) → String → Option Value →
    List (String × Option Value)
  | [], key, value => [(key, value)]
  | (k, v) :: rest, key, value =>
      if k = key then (k, value) :: rest else (k, v) :: upsertPatch rest key value

/-- `keysToSync.reduce((all, key) => ({ ...all, [key]: get(docData, key) }),
{})`: the patch maps each named key to the value read from `docData`; a key
absent from `docData` gets an `undefined` (`none`) entry, and a duplicate
key keeps its first position with the later value. -/
def buildSyncPatch (docData : Value) (keys : List String) :
    List (String × Option Value) :=
  keys.foldl (fun all key => upsertPatch all key (lodashGet docData (splitPath key))) []

/-- Apply a defined patch to the remote document: Firestore `updateDoc`
writes each patch entry at its (dotted) field path and leaves every other
field unchanged. -/
def applyRemotePatch (remote : Value) (patch : List (String × Value)) : Value :=
  patch.foldl (fun acc kv => lodashSet acc (splitPath kv.1) kv.2) remote

/-- `_updateDoc(id, data)` with a resolvable reference: merge the
call-time `appendToUpdated` data over the patch (`{ ...data, ...appendData
}`), then `await updateDoc(ref, patch).catch(logger.error)`.  A patch
containing an `undefined` field value is rejected by Firestore; the
rejection is swallowed by the `catch`, leaving the remote document
unchanged (the call still resolves `true`). -/
def _updateDoc (append : List (String × Value)) (remote : Value)
    (data : List (String × Option Value)) : Value :=
  let patch := append.foldl (fun all kv => upsertPatch all kv.1 (some kv.2)) data
  match patch.mapM (fun kv => kv.2.map (fun v => (kv.1, v))) with
  | some defined => applyRemotePatch remote defined
  | none => remote

/-- `_sync(docData, keys)` with the keys already wrapped into a list
(`keysToSync = (typeof keys === 'string') ? [keys] : keys`; calling `$sync`
with no argument at all makes `keysToSync.reduce` throw and is outside this
function's domain): build the patch of named keys, fall back to the whole
document when the patch is empty, and hand it to
`_updateDoc(docData.__id, dataToSync)`.  The returned value is the remote
document after the call, for the remote document the resolved reference
points at. -/
def _sync (append : List (String × Value)) (remote docData : Value)
    (keys : List String) : Value :=
  let patch := buildSyncPatch docData keys
  let dataToSync := if patch.length > 0 then patch
    else (objEntries docData).map (fun kv => (kv.1, some kv.2))
  _updateDoc append remote dataToSync

/-! ## src/lib/store.js: one-shot initialization guard -/

/-- The `_initializedState` symbols of `src/lib/store.js` (the source
spells the middle one `INITITALIZING`). -/
inductive InitState where
  | UNINITIALIZED
  | INITITALIZING
  | INITIALIZED
  deriving DecidableEq, Repr

/-- The lifecycle-relevant portion of a store instance, with bookkeeping
counters: `triggers` counts invocations of the configured initializer
callback, `pending` the initializer promises not yet resolved, and
`completions` the number of times `onInitialized` ran. -/
structure LifeSt where
  _initializedState : InitState
  isInitialized : Bool
  pending : Nat
  triggers : Nat
  completions : Nat
  deriving DecidableEq, Repr

/-- The events that drive the lifecycle: `use` is one execution of the
guard block in the store factory (a caller using the store), `complete` is
the deferred initializer promise resolving and running `onInitialized`, and
`reset` is a `this.$reset()` call — reached through the public `$delete`
action and through `_unbind` — which re-applies the `state()` function and
therefore restores `_initializedState: UNINITIALIZED` and
`isInitialized: false`. -/
inductive LifeEvent where
  | use
  | complete
  | reset
  deriving DecidableEq, Repr

/-- One lifecycle step.  For `use`, the guard is
`!store.isInitialized && store._initializedState !== INITITALIZING`; inside
it the state is set to `INITITALIZING` and the initializer callback runs —
synchronously completing when it does not return a promise (`syncInit =
true`), otherwise registering `onInitialized` on the promise.
`onInitialized` sets `_initializedState = INITIALIZED` and
`isInitialized = true`.  For `reset`, `$reset` re-applies `state()`,
putting the lifecycle fields back to their initial values; an initializer
promise already pending is not cancelled (its `then(onInitialized)` still
fires later), and the history counters are bookkeeping, untouched. -/
def lifeStep (syncInit : Bool) (st : LifeSt) : LifeEvent → LifeSt
  | .use =>
      if st.isInitialized = false ∧ st._initializedState ≠ .INITITALIZING then
        let st := { st with _initializedState := .INITITALIZING,
                            triggers := st.triggers + 1 }
        if syncInit then
          { st with _initializedState := .INITIALIZED, isInitialized := true,
                    completions := st.completions + 1 }
        else
          { st with pending := st.pending + 1 }
      else st
  | .complete =>
      if st.pending > 0 then
        { st with _initializedState := .INITIALIZED, isInitialized := true,
                  pending := st.pending - 1, completions := st.completions + 1 }
      else st
  | .reset =>
      { st with _initializedState := .UNINITIALIZED, isInitialized := false }

/-- The store state as produced by `state()`: uninitialized, with no
pending or completed initializer work. -/
def lifeInit : LifeSt :=
  { _initializedState := .UNINITIALIZED, isInitialized := false,
    pending := 0, triggers := 0, completions := 0 }

/-- Fold an event sequence from the initial lifecycle state. -/
def lifeRun (syncInit : Bool) (events : List LifeEvent) : LifeSt :=
  events.foldl (lifeStep syncInit) lifeInit

/-- Order of the lifecycle states along the intended progression. -/
def lifeRank : InitState → Nat
  | .UNINITIALIZED => 0
  | .INITITALIZING => 1
  | .INITIALIZED => 2

/-! ## src/lib/store.js: the Proxy returned to callers -/

/-- The Proxy `get` handler of `src/lib/store.js`:
`if (store.doc[prop]) return store.doc[prop]; return Reflect.get(target,
prop);` — the document value is returned only when it is truthy; otherwise
the read falls through to the store instance's own property
(`storeProps`). -/
def proxyGet (doc : Value) (storeProps : List (String × Value)) (prop : String) :
    Option Value :=
  match getProp doc prop with
  | some v => if truthy v then some v else lookupField storeProps prop
  | none => lookupField storeProps prop

/-- The Proxy `set` handler: `if (typeof store.doc[prop] !== 'undefined')
store.doc[prop] = value; else store[prop] = value;` — the write goes to the
document exactly when the document's value at `prop` is defined; the
handler returns `true` either way.  (`undefined`-valued declared properties
do not arise in this `Option`-based model, where defined and declared
coincide.) -/
def proxySet (doc : Value) (storeProps : List (String × Value)) (prop : String)
    (value : Value) : Value × List (String × Value) :=
  match getProp doc prop with
  | some _ => (setProp doc prop value, storeProps)
  | none => (doc, upsertField storeProps prop value)

/-! ## Auxiliary definitions used by the specifications -/

/-- The inductive invariant of the initialization guard: the counters and
flags agree with the lifecycle state, at most one initializer promise is
outstanding, and a pending promise exists only while initializing. -/
def LifeInv (st : LifeSt) : Prop :=
  (st._initializedState = .UNINITIALIZED → st.triggers = 0 ∧ st.isInitialized = false) ∧
  (st._initializedState = .INITITALIZING → st.triggers = 1 ∧ st.isInitialized = false) ∧
  (st._initializedState = .INITIALIZED →
    st.triggers = 1 ∧ st.isInitialized = true ∧ 1 ≤ st.completions) ∧
  (st.isInitialized = true → st._initializedState = .INITIALIZED) ∧
  st.pending ≤ 1 ∧
  (st._initializedState ≠ .INITITALIZING → st.pending = 0)

/-- Association lookup on a patch entry list. -/
def lookupPatch : List (String × Option Value) → String → Option (Option Value)
  | [], _ => none
  | (k, v) :: rest, key => if k = key then some v else lookupPatch rest key

/-- The defined entries of a patch, in order (used to state what Firestore
receives when no entry is `undefined`). -/
def stripPatch (l : List (String × Option Value)) : List (String × Value) :=
  l.filterMap (fun kv => kv.2.map (fun v => (kv.1, v)))

/-! ## Concrete inputs used by witnesses and counterexamples -/

/-- A store context whose validator, success handler and sync all succeed. -/
def ctxOk : StoreCtx :=
  { storeId := "test", validateAt := fun _ _ => .ok (),
    onSuccessResult := .ok (), syncResult := .ok () }

/-- A store context whose schema rejects the value 999 at `testValue` (the
test schema caps `testValue` at 100). -/
def ctxFail : StoreCtx :=
  { storeId := "test",
    validateAt := fun _ cloned =>
      if lodashGet cloned ["testValue"] = some (.vNum 999) then .error "validation failed"
      else .ok (),
    onSuccessResult := .ok (), syncResult := .ok () }

/-- A store context whose configured `onValidationSuccess` handler throws. -/
def ctxThrow : StoreCtx :=
  { storeId := "test", validateAt := fun _ _ => .ok (),
    onSuccessResult := .error "success handler failed", syncResult := .ok () }

/-- A document with one numeric field, matching the test schema default. -/
def docW : Value := .vObj [("testValue", .vNum 50)]

/-- The store document used to exhibit the aliasing in the equality
pre-check of `_update`. -/
def storeDocC4 : Value := .vObj [("x", .vNum 1)]

/-- A collection item distinct from the store document at `x`. -/
def objC4 : Value := .vObj [("x", .vNum 2)]

/-- A document holding an array field. -/
def docArr : Value := .vObj [("numbers", .vArr [.vNum 1, .vNum 2])]

/-- Snapshot of document `a` for the collection reconciliation scenario. -/
def snapA : DocSnap :=
  { exist := true, id := "a", path := "testCollection/a", metadata := .vNull, data := [] }

/-- Snapshot of document `b` for the collection reconciliation scenario. -/
def snapB : DocSnap :=
  { exist := true, id := "b", path := "testCollection/b", metadata := .vNull, data := [] }

/-- The change feed `added(a, 0); added(b, 1); removed(a, oldIndex 0)`. -/
def c2Changes : List DocChange :=
  [ { type := .added, doc := snapA, newIndex := 0, oldIndex := 0 },
    { type := .added, doc := snapB, newIndex := 1, oldIndex := 0 },
    { type := .removed, doc := snapA, newIndex := 0, oldIndex := 0 } ]

/-- The collection state after folding `c2Changes` into the empty state. -/
def c2Result : CollState := applyDocChanges { seq := [], byId := [] } c2Changes

/-- The document object tracked for `b` after the scenario: it sits at
position 0 of the sequence but its recorded index field is still 1. -/
def docBFinal : Value :=
  .vObj [("__id", .vStr "b"), ("__path", .vStr "testCollection/b"),
         ("__metadata", .vNull), ("__index", .vNum 1)]

/-- An existing-document snapshot delivered first on a bind. -/
def snapFirst : DocSnap :=
  { exist := true, id := "d1", path := "testCollection/d1", metadata := .vNull,
    data := [("title", .vStr "hello")] }

/-- A snapshot reporting that the bound document no longer exists. -/
def snapGone : DocSnap :=
  { exist := false, id := "d1", path := "testCollection/d1", metadata := .vNull,
    data := [] }

/-- The bind state after the first (existing) snapshot of the
counterexample run. -/
def c1AfterFirst : BindState :=
  docBindRun {} "store1" "d1" (docBindInit [] "store1" "d1" 7 (.vObj [])) [.snap snapFirst]

/-- The bind state after an existing snapshot followed by a listener
error. -/
def c7Final : BindState :=
  docBindRun {} "store1" "d1" (docBindInit [] "store1" "d1" 7 (.vObj []))
    [.snap snapFirst, .err "listener failed"]

/-- Call-time audit data appended on update. -/
def appendW : List (String × Value) := [("updatedBy", .vStr "user2")]

/-- A remote document with three fields. -/
def rfsW : List (String × Value) :=
  [("title", .vStr "old"), ("testValue", .vNum 50), ("keep", .vBool true)]

/-- The local document state synced against `rfsW`. -/
def dfsW : List (String × Value) :=
  [("__id", .vStr "d1"), ("title", .vStr "new"), ("testValue", .vNum 20)]

/-! ## Supporting lemmas: object field lists -/

theorem lookupField_upsertField_self (fs : List (String × Value)) (k : String) (v : Value) :
    lookupField (upsertField fs k v) k = some v := by
  induction fs with
  | nil => simp [upsertField, lookupField]
  | cons kv rest ih =>
      obtain ⟨k', v'⟩ := kv
      by_cases h : k' = k
      · simp [upsertField, lookupField, h]
      · simp [upsertField, lookupField, h, ih]

theorem lookupField_upsertField_ne (fs : List (String × Value)) (k f : String) (v : Value)
    (h : f ≠ k) : lookupField (upsertField fs k v) f = lookupField fs f := by
  induction fs with
  | nil =>
      simp only [upsertField, lookupField]
      exact if_neg (fun hh => h hh.symm)
  | cons kv rest ih =>
      obtain ⟨k', v'⟩ := kv
      by_cases hk : k' = k
      · subst hk
        simp [upsertField, lookupField, Ne.symm h]
      · by_cases hf : k' = f
        · simp [upsertField, lookupField, hk, hf, h]
        · simp [upsertField, lookupField, hk, hf, ih]

/-! ## Supporting lemmas: lodash get and set -/

theorem lodashGet_lodashSet_self : ∀ (d : Value) (p : List String) (v : Value),
    lodashHas d p = true → lodashGet (lodashSet d p v) p = some v
  | d, [], _, _ => by cases d <;> simp [lodashSet, lodashGet]
  | d, k :: rest, v, h => by
      unfold lodashHas at h
      match d with
      | .vNull | .vBool _ | .vNum _ | .vStr _ | .vArr _ =>
          simp [lodashGet] at h
      | .vObj fs =>
          simp only [lodashGet] at h
          match hu : lookupField fs k with
          | none => rw [hu] at h; simp at h
          | some u =>
              rw [hu] at h
              show lodashGet (.vObj (upsertField fs k (lodashSet
                (match lookupField fs k with | some u => u | none => .vObj []) rest v)))
                (k :: rest) = some v
              rw [hu]
              simp only [lodashGet, lookupField_upsertField_self]
              exact lodashGet_lodashSet_self u rest v h

theorem lodashGet_single (fs : List (String × Value)) (f : String) :
    lodashGet (.vObj fs) [f] = lookupField fs f := by
  cases h : lookupField fs f <;> simp [lodashGet, h]

theorem lodashSet_single (fs : List (String × Value)) (k : String) (v : Value) :
    lodashSet (.vObj fs) [k] v = .vObj (upsertField fs k v) := by
  cases h : lookupField fs k <;> simp [lodashSet, h]

theorem lodashGet_lodashSet_single_ne (d : Value) (k f : String) (v : Value) (h : f ≠ k) :
    lodashGet (lodashSet d [k] v) [f] = lodashGet d [f] := by
  match d with
  | .vNull | .vBool _ | .vNum _ | .vStr _ | .vArr _ => rfl
  | .vObj fs =>
      rw [lodashSet_single, lodashGet_single, lodashGet_single,
          lookupField_upsertField_ne fs k f v h]

/-! ## Supporting lemmas: registry -/

theorem regLookup_eq_none_of_not_mem (reg : Registry) (key : String)
    (h : key ∉ reg.map Prod.fst) : regLookup reg key = none := by
  induction reg with
  | nil => rfl
  | cons kv rest ih =>
      obtain ⟨k', it⟩ := kv
      simp only [List.map_cons, List.mem_cons, not_or] at h
      simp only [regLookup, if_neg (fun hh : k' = key => h.1 hh.symm)]
      exact ih h.2

theorem regErase_map_fst_subset (reg : Registry) (k : String) :
    (regErase reg k).map Prod.fst ⊆ reg.map Prod.fst := by
  induction reg with
  | nil => simp [regErase]
  | cons kv rest ih =>
      obtain ⟨k', it⟩ := kv
      by_cases he : k' = k
      · simp only [regErase, if_pos he, List.map_cons]
        exact List.subset_cons_of_subset _ (List.Subset.refl _)
      · simp only [regErase, if_neg he, List.map_cons]
        exact List.cons_subset_cons _ ih

theorem regKeys_nodup_regErase (reg : Registry) (k : String)
    (h : (reg.map Prod.fst).Nodup) : ((regErase reg k).map Prod.fst).Nodup := by
  induction reg with
  | nil => simp [regErase]
  | cons kv rest ih =>
      obtain ⟨k', it⟩ := kv
      simp only [List.map_cons, List.nodup_cons] at h
      by_cases he : k' = k
      · simpa [regErase, he] using h.2
      · simp only [regErase, if_neg he, List.map_cons, List.nodup_cons]
        exact ⟨fun hm => h.1 (regErase_map_fst_subset rest k hm), ih h.2⟩

theorem regLookup_regErase_none (reg : Registry) (k key : String)
    (h : regLookup reg key = none) : regLookup (regErase reg k) key = none := by
  induction reg with
  | nil => simp [regErase, regLookup]
  | cons kv rest ih =>
      obtain ⟨k', it⟩ := kv
      simp only [regLookup] at h
      by_cases hk : k' = key
      · simp [hk] at h
      · rw [if_neg hk] at h
        by_cases he : k' = k
        · simp only [regErase, if_pos he]
          exact h
        · simp only [regErase, if_neg he, regLookup, if_neg hk]
          exact ih h

theorem regLookup_regErase_self (reg : Registry) (key : String)
    (h : (reg.map Prod.fst).Nodup) : regLookup (regErase reg key) key = none := by
  induction reg with
  | nil => simp [regErase, regLookup]
  | cons kv rest ih =>
      obtain ⟨k', it⟩ := kv
      simp only [List.map_cons, List.nodup_cons] at h
      by_cases he : k' = key
      · subst he
        simp only [regErase, if_pos rfl]
        exact regLookup_eq_none_of_not_mem rest k' h.1
      · simp only [regErase, if_neg he, regLookup, if_neg he]
        exact ih h.2

theorem regLookup_remove_none (reg : Registry) (id name key : String)
    (h : regLookup reg key = none) : regLookup (remove reg id name) key = none := by
  unfold remove
  cases hp : regLookup reg (getStoreKey id name) with
  | none => exact h
  | some it => exact regLookup_regErase_none reg (getStoreKey id name) key h

theorem regLookup_remove_self (reg : Registry) (id name : String)
    (h : (reg.map Prod.fst).Nodup) :
    regLookup (remove reg id name) (getStoreKey id name) = none := by
  unfold remove
  cases hp : regLookup reg (getStoreKey id name) with
  | none => exact hp
  | some it => exact regLookup_regErase_self reg (getStoreKey id name) h

theorem regKeys_nodup_remove (reg : Registry) (id name : String)
    (h : (reg.map Prod.fst).Nodup) :
    ((remove reg id name).map Prod.fst).Nodup := by
  unfold remove
  cases regLookup reg (getStoreKey id name) with
  | none => exact h
  | some it => exact regKeys_nodup_regErase reg (getStoreKey id name) h

/-! ## Supporting lemmas: bind steps -/

theorem bindResolve_of_initialised (st : BindState) (v : Value)
    (h : st.isInitialised = true) : bindResolve st v = st := by
  unfold bindResolve
  rw [h]
  simp

theorem bindResolve_registry (st : BindState) (v : Value) :
    (bindResolve st v).registry = st.registry := by
  unfold bindResolve
  by_cases h : st.isInitialised <;> simp [h]

theorem handleError_eq (o r : String) (st : BindState) (e : String) :
    handleError o r st e =
      if st.isInitialised then { st with registry := remove st.registry o r }
      else { st with registry := remove st.registry o r, isInitialised := true,
                     settled := some (.rejected e), settleCount := st.settleCount + 1 } := by
  unfold handleError
  by_cases h : st.isInitialised <;> simp [h]

theorem handleDocSnapshotUpdate_registry (opts : BindOptions) (st : BindState) (s : DocSnap) :
    (handleDocSnapshotUpdate opts st s).registry = st.registry := by
  unfold handleDocSnapshotUpdate
  split
  · exact bindResolve_registry _ _
  · dsimp only
    split
    · split
      · exact bindResolve_registry _ _
      · rfl
    · exact bindResolve_registry _ _

theorem handleDocSnapshotUpdate_of_initialised (opts : BindOptions) (st : BindState)
    (s : DocSnap) (h : st.isInitialised = true) :
    (handleDocSnapshotUpdate opts st s).isInitialised = true ∧
    (handleDocSnapshotUpdate opts st s).settled = st.settled ∧
    (handleDocSnapshotUpdate opts st s).settleCount = st.settleCount ∧
    (handleDocSnapshotUpdate opts st s).unsubCalls = st.unsubCalls := by
  unfold handleDocSnapshotUpdate
  split
  · rw [bindResolve_of_initialised st _ h]
    exact ⟨h, rfl, rfl, rfl⟩
  · dsimp only
    split
    · split
      · rw [bindResolve_of_initialised _ _ (by simpa using h)]
        exact ⟨h, rfl, rfl, rfl⟩
      · exact ⟨h, rfl, rfl, rfl⟩
    · rw [bindResolve_of_initialised _ _ (by simpa using h)]
      exact ⟨h, rfl, rfl, rfl⟩

theorem docBindStep_of_initialised (opts : BindOptions) (o r : String) (st : BindState)
    (e : BindEvent) (h : st.isInitialised = true) :
    (docBindStep opts o r st e).isInitialised = true ∧
    (docBindStep opts o r st e).settled = st.settled ∧
    (docBindStep opts o r st e).settleCount = st.settleCount ∧
    (docBindStep opts o r st e).unsubCalls = st.unsubCalls := by
  cases e with
  | snap s =>
      simp only [docBindStep]
      exact handleDocSnapshotUpdate_of_initialised opts st s h
  | err e =>
      simp only [docBindStep]
      rw [handleError_eq, if_pos h]
      exact ⟨h, rfl, rfl, rfl⟩

theorem docBindStep_registry_none (opts : BindOptions) (o r : String) (st : BindState)
    (e : BindEvent) (key : String) (h : regLookup st.registry key = none) :
    regLookup (docBindStep opts o r st e).registry key = none := by
  cases e with
  | snap s =>
      simp only [docBindStep]
      rw [handleDocSnapshotUpdate_registry]
      exact h
  | err e =>
      simp only [docBindStep]
      rw [handleError_eq]
      by_cases hi : st.isInitialised <;>
        simp [hi, regLookup_remove_none st.registry o r key h]

theorem docBindStep_registry_nodup (opts : BindOptions) (o r : String) (st : BindState)
    (e : BindEvent) (h : (st.registry.map Prod.fst).Nodup) :
    ((docBindStep opts o r st e).registry.map Prod.fst).Nodup := by
  cases e with
  | snap s =>
      simp only [docBindStep]
      rw [handleDocSnapshotUpdate_registry]
      exact h
  | err e =>
      simp only [docBindStep]
      rw [handleError_eq]
      by_cases hi : st.isInitialised <;>
        simp [hi, regKeys_nodup_remove st.registry o r h]

/-! ## Supporting lemmas: lifecycle -/

theorem lifeStep_use_eq (b : Bool) (st : LifeSt) :
    lifeStep b st .use =
      if st.isInitialized = false ∧ st._initializedState ≠ InitState.INITITALIZING then
        (if b = true then
          { st with _initializedState := .INITIALIZED, isInitialized := true,
                    triggers := st.triggers + 1, completions := st.completions + 1 }
        else
          { st with _initializedState := .INITITALIZING, triggers := st.triggers + 1,
                    pending := st.pending + 1 })
      else st := by
  by_cases hg : st.isInitialized = false ∧ st._initializedState ≠ InitState.INITITALIZING
  · simp only [lifeStep, if_pos hg]
  · simp only [lifeStep, if_neg hg]

theorem lifeStep_complete_eq (b : Bool) (st : LifeSt) :
    lifeStep b st .complete =
      if st.pending > 0 then
        { st with _initializedState := .INITIALIZED, isInitialized := true,
                  pending := st.pending - 1, completions := st.completions + 1 }
      else st := by
  simp only [lifeStep]

theorem lifeInit_inv : LifeInv lifeInit := by
  simp [LifeInv, lifeInit]

theorem lifeStep_use_state (st : LifeSt) (h : LifeInv st)
    (hg : st.isInitialized = false ∧ st._initializedState ≠ InitState.INITITALIZING) :
    st._initializedState = .UNINITIALIZED := by
  obtain ⟨h1, h2, h3, h4, h5, h6⟩ := h
  cases hs : st._initializedState with
  | UNINITIALIZED => rfl
  | INITITALIZING => exact absurd hs hg.2
  | INITIALIZED =>
      have hinit := (h3 hs).2.1
      rw [hg.1] at hinit
      exact nomatch hinit

theorem lifeStep_reset_eq (b : Bool) (st : LifeSt) :
    lifeStep b st .reset =
      { st with _initializedState := .UNINITIALIZED, isInitialized := false } := by
  simp only [lifeStep]

theorem lifeStep_inv (b : Bool) (st : LifeSt) (e : LifeEvent) (h : LifeInv st)
    (hnr : e ≠ LifeEvent.reset) : LifeInv (lifeStep b st e) := by
  cases e with
  | reset => exact absurd rfl hnr
  | use =>
      rw [lifeStep_use_eq]
      by_cases hg : st.isInitialized = false ∧ st._initializedState ≠ InitState.INITITALIZING
      · have hs : st._initializedState = .UNINITIALIZED := lifeStep_use_state st h hg
        obtain ⟨h1, h2, h3, h4, h5, h6⟩ := h
        have ht : st.triggers = 0 := (h1 hs).1
        have hp : st.pending = 0 := by
          apply h6
          rw [hs]
          exact fun hh => nomatch hh
        rw [if_pos hg]
        cases b with
        | true =>
            rw [if_pos rfl]
            simp [LifeInv, ht, hp]
        | false =>
            rw [if_neg Bool.false_ne_true]
            simp [LifeInv, ht, hp, hg.1]
      · rw [if_neg hg]
        exact h
  | complete =>
      rw [lifeStep_complete_eq]
      by_cases hp : st.pending > 0
      · obtain ⟨h1, h2, h3, h4, h5, h6⟩ := h
        have hs : st._initializedState = .INITITALIZING := by
          by_contra hne
          rw [h6 hne] at hp
          exact nomatch hp
        have ht : st.triggers = 1 := (h2 hs).1
        have hone : st.pending = 1 := le_antisymm h5 hp
        rw [if_pos hp]
        simp [LifeInv, ht, hone]
      · rw [if_neg hp]
        exact h

theorem lifeRun_foldl_inv (b : Bool) (l : List LifeEvent) (st : LifeSt) (h : LifeInv st)
    (hnr : ∀ e ∈ l, e ≠ LifeEvent.reset) : LifeInv (l.foldl (lifeStep b) st) := by
  induction l generalizing st with
  | nil => exact h
  | cons e rest ih =>
      exact ih (lifeStep b st e)
        (lifeStep_inv b st e h (hnr e (List.mem_cons_self _ _)))
        (fun e2 he2 => hnr e2 (List.mem_cons_of_mem _ he2))

theorem lifeRun_inv (b : Bool) (events : List LifeEvent)
    (hnr : ∀ e ∈ events, e ≠ LifeEvent.reset) : LifeInv (lifeRun b events) :=
  lifeRun_foldl_inv b events lifeInit lifeInit_inv hnr

theorem lifeStep_rank_mono (b : Bool) (st : LifeSt) (e : LifeEvent) (h : LifeInv st)
    (hnr : e ≠ LifeEvent.reset) :
    lifeRank st._initializedState ≤ lifeRank (lifeStep b st e)._initializedState := by
  cases e with
  | reset => exact absurd rfl hnr
  | use =>
      rw [lifeStep_use_eq]
      by_cases hg : st.isInitialized = false ∧ st._initializedState ≠ InitState.INITITALIZING
      · have hs : st._initializedState = .UNINITIALIZED := lifeStep_use_state st h hg
        rw [if_pos hg]
        conv_lhs => rw [hs]
        exact Nat.zero_le _
      · rw [if_neg hg]
  | complete =>
      rw [lifeStep_complete_eq]
      by_cases hp : st.pending > 0
      · rw [if_pos hp]
        cases st._initializedState <;> simp [lifeRank]
      · rw [if_neg hp]

/-! ## Supporting lemmas: sync patches -/

theorem lookupPatch_upsertPatch_self (l : List (String × Option Value)) (k : String)
    (v : Option Value) : lookupPatch (upsertPatch l k v) k = some v := by
  induction l with
  | nil => simp [upsertPatch, lookupPatch]
  | cons kv rest ih =>
      obtain ⟨k', v'⟩ := kv
      by_cases h : k' = k
      · simp [upsertPatch, lookupPatch, h]
      · simp [upsertPatch, lookupPatch, h, ih]

theorem lookupPatch_upsertPatch_ne (l : List (String × Option Value)) (k f : String)
    (v : Option Value) (h : f ≠ k) :
    lookupPatch (upsertPatch l k v) f = lookupPatch l f := by
  induction l with
  | nil =>
      simp only [upsertPatch, lookupPatch]
      exact if_neg (fun hh => h hh.symm)
  | cons kv rest ih =>
      obtain ⟨k', v'⟩ := kv
      by_cases hk : k' = k
      · subst hk
        simp [upsertPatch, lookupPatch, Ne.symm h]
      · by_cases hf : k' = f
        · simp [upsertPatch, lookupPatch, hk, hf, h]
        · simp [upsertPatch, lookupPatch, hk, hf, ih]

theorem mem_keys_upsertPatch (l : List (String × Option Value)) (k f : String)
    (v : Option Value) (h : f ∈ (upsertPatch l k v).map Prod.fst) :
    f ∈ l.map Prod.fst ∨ f = k := by
  induction l with
  | nil =>
      simp [upsertPatch] at h
      exact Or.inr h
  | cons kv rest ih =>
      obtain ⟨k', v'⟩ := kv
      by_cases hk : k' = k
      · simp only [upsertPatch, if_pos hk, List.map_cons, List.mem_cons] at h
        rcases h with h | h
        · exact Or.inl (by simp [h])
        · exact Or.inl (by simp [h])
      · simp only [upsertPatch, if_neg hk, List.map_cons, List.mem_cons] at h
        rcases h with h | h
        · exact Or.inl (by simp [h])
        · rcases ih h with h2 | h2
          · exact Or.inl (by simp [h2])
          · exact Or.inr h2

theorem nodup_keys_upsertPatch (l : List (String × Option Value)) (k : String)
    (v : Option Value) (h : (l.map Prod.fst).Nodup) :
    ((upsertPatch l k v).map Prod.fst).Nodup := by
  induction l with
  | nil => simp [upsertPatch]
  | cons kv rest ih =>
      obtain ⟨k', v'⟩ := kv
      simp only [List.map_cons, List.nodup_cons] at h
      by_cases hk : k' = k
      · simp only [upsertPatch, if_pos hk, List.map_cons, List.nodup_cons]
        exact ⟨h.1, h.2⟩
      · simp only [upsertPatch, if_neg hk, List.map_cons, List.nodup_cons]
        refine ⟨fun hm => ?_, ih h.2⟩
        rcases mem_keys_upsertPatch rest k k' v hm with h2 | h2
        · exact h.1 h2
        · exact hk h2

theorem isSome_upsertPatch (l : List (String × Option Value)) (k : String) (v : Option Value)
    (hl : ∀ kv ∈ l, Option.isSome kv.2 = true) (hv : v.isSome = true) :
    ∀ kv ∈ upsertPatch l k v, Option.isSome kv.2 = true := by
  induction l with
  | nil =>
      intro kv hm
      simp [upsertPatch] at hm
      simp [hm, hv]
  | cons kw rest ih =>
      obtain ⟨k', v'⟩ := kw
      intro kv hm
      by_cases hk : k' = k
      · simp only [upsertPatch, if_pos hk, List.mem_cons] at hm
        rcases hm with hm | hm
        · simp [hm, hv]
        · exact hl kv (List.mem_cons_of_mem _ hm)
      · simp only [upsertPatch, if_neg hk, List.mem_cons] at hm
        rcases hm with hm | hm
        · exact hl kv (by simp [hm])
        · exact ih (fun kw hw => hl kw (List.mem_cons_of_mem _ hw)) kv hm

theorem mem_keys_foldAppend (append : List (String × Value))
    (data : List (String × Option Value)) (f : String)
    (h : f ∈ ((append.foldl (fun all kv => upsertPatch all kv.1 (some kv.2)) data).map
      Prod.fst)) : f ∈ data.map Prod.fst ∨ f ∈ append.map Prod.fst := by
  induction append generalizing data with
  | nil => exact Or.inl h
  | cons kv rest ih =>
      obtain ⟨k', v'⟩ := kv
      simp only [List.foldl_cons] at h
      rcases ih (upsertPatch data k' (some v')) h with h2 | h2
      · rcases mem_keys_upsertPatch data k' f (some v') h2 with h3 | h3
        · exact Or.inl h3
        · exact Or.inr (by simp [h3])
      · exact Or.inr (by simp [h2])

theorem lookupPatch_foldAppend_not_mem (append : List (String × Value))
    (data : List (String × Option Value)) (k : String)
    (h : k ∉ append.map Prod.fst) :
    lookupPatch (append.foldl (fun all kv => upsertPatch all kv.1 (some kv.2)) data) k =
      lookupPatch data k := by
  induction append generalizing data with
  | nil => rfl
  | cons kv rest ih =>
      obtain ⟨k', v'⟩ := kv
      simp only [List.map_cons, List.mem_cons, not_or] at h
      simp only [List.foldl_cons]
      rw [ih (upsertPatch data k' (some v')) h.2]
      exact lookupPatch_upsertPatch_ne data k' k (some v') h.1

theorem lookupPatch_foldAppend_mem (append : List (String × Value))
    (data : List (String × Option Value)) (k : String) (v : Value)
    (hnd : (append.map Prod.fst).Nodup) (hm : (k, v) ∈ append) :
    lookupPatch (append.foldl (fun all kv => upsertPatch all kv.1 (some kv.2)) data) k =
      some (some v) := by
  induction append generalizing data with
  | nil => cases hm
  | cons kv rest ih =>
      obtain ⟨k', v'⟩ := kv
      simp only [List.map_cons, List.nodup_cons] at hnd
      simp only [List.foldl_cons]
      rcases List.mem_cons.mp hm with hm1 | hm1
      · obtain ⟨hk, hv⟩ : k = k' ∧ v = v' :=
          ⟨congrArg Prod.fst hm1, congrArg Prod.snd hm1⟩
        subst hk
        subst hv
        rw [lookupPatch_foldAppend_not_mem rest _ k hnd.1]
        exact lookupPatch_upsertPatch_self data k (some v)
      · exact ih (upsertPatch data k' (some v')) hnd.2 hm1

theorem nodup_keys_foldAppend (append : List (String × Value))
    (data : List (String × Option Value)) (h : (data.map Prod.fst).Nodup) :
    (((append.foldl (fun all kv => upsertPatch all kv.1 (some kv.2)) data).map
      Prod.fst)).Nodup := by
  induction append generalizing data with
  | nil => exact h
  | cons kv rest ih =>
      obtain ⟨k', v'⟩ := kv
      simp only [List.foldl_cons]
      exact ih (upsertPatch data k' (some v')) (nodup_keys_upsertPatch data k' (some v') h)

theorem isSome_foldAppend (append : List (String × Value))
    (data : List (String × Option Value))
    (h : ∀ kv ∈ data, Option.isSome kv.2 = true) :
    ∀ kv ∈ append.foldl (fun all kv => upsertPatch all kv.1 (some kv.2)) data,
      Option.isSome kv.2 = true := by
  induction append generalizing data with
  | nil => exact h
  | cons kv rest ih =>
      obtain ⟨k', v'⟩ := kv
      simp only [List.foldl_cons]
      exact ih (upsertPatch data k' (some v')) (isSome_upsertPatch data k' (some v') h rfl)

theorem mapM_eq_stripPatch (l : List (String × Option Value))
    (h : ∀ kv ∈ l, Option.isSome kv.2 = true) :
    l.mapM (fun kv => kv.2.map (fun v => (kv.1, v))) = some (stripPatch l) := by
  induction l with
  | nil => rfl
  | cons kv rest ih =>
      obtain ⟨k, v⟩ := kv
      cases hv : v with
      | none =>
          have := h (k, v) (List.mem_cons_self _ _)
          rw [hv] at this
          cases this
      | some w =>
          rw [List.mapM_cons]
          rw [ih (fun kw hw => h kw (List.mem_cons_of_mem _ hw))]
          simp [stripPatch, hv, List.filterMap_cons]

theorem keys_stripPatch (l : List (String × Option Value))
    (h : ∀ kv ∈ l, Option.isSome kv.2 = true) :
    (stripPatch l).map Prod.fst = l.map Prod.fst := by
  induction l with
  | nil => rfl
  | cons kv rest ih =>
      obtain ⟨k, v⟩ := kv
      cases hv : v with
      | none =>
          have := h (k, v) (List.mem_cons_self _ _)
          rw [hv] at this
          cases this
      | some w =>
          have ihr := ih (fun kw hw => h kw (List.mem_cons_of_mem _ hw))
          simp only [stripPatch] at ihr
          simp only [stripPatch, List.filterMap_cons, Option.map_some', List.map_cons,
            List.cons.injEq, true_and]
          exact ihr

theorem mem_stripPatch_of_lookupPatch (l : List (String × Option Value)) (k : String)
    (v : Value) (h : lookupPatch l k = some (some v)) : (k, v) ∈ stripPatch l := by
  induction l with
  | nil => cases h
  | cons kv rest ih =>
      obtain ⟨k', v'⟩ := kv
      simp only [lookupPatch] at h
      by_cases hk : k' = k
      · rw [if_pos hk] at h
        have hv : v' = some v := by injection h
        subst hk
        subst hv
        simp [stripPatch, List.filterMap_cons]
      · rw [if_neg hk] at h
        have := ih h
        cases hv' : v' with
        | none => simpa [stripPatch, List.filterMap_cons, hv'] using this
        | some w =>
            simp only [stripPatch, List.filterMap_cons, hv', Option.map_some']
            exact List.mem_cons_of_mem _ this

theorem mem_key_of_mem_stripPatch (l : List (String × Option Value)) (k : String) (v : Value)
    (h : (k, v) ∈ stripPatch l) : k ∈ l.map Prod.fst := by
  unfold stripPatch at h
  obtain ⟨kv, hkv, hf⟩ := List.mem_filterMap.mp h
  cases hw : kv.2 with
  | none =>
      rw [hw] at hf
      cases hf
  | some w =>
      rw [hw] at hf
      simp only [Option.map_some'] at hf
      have hk : kv.1 = k := congrArg Prod.fst (Option.some.inj hf)
      exact hk ▸ List.mem_map_of_mem Prod.fst hkv

theorem applyRemotePatch_frame (patch : List (String × Value)) (remote : Value) (f : String)
    (hsingle : ∀ kv ∈ patch, splitPath kv.1 = [kv.1])
    (hout : f ∉ patch.map Prod.fst) :
    lodashGet (applyRemotePatch remote patch) [f] = lodashGet remote [f] := by
  induction patch generalizing remote with
  | nil => rfl
  | cons kv rest ih =>
      obtain ⟨k, v⟩ := kv
      simp only [List.map_cons, List.mem_cons, not_or] at hout
      simp only [applyRemotePatch, List.foldl_cons]
      rw [show List.foldl (fun acc kv => lodashSet acc (splitPath kv.1) kv.2)
        (lodashSet remote (splitPath k) v) rest =
        applyRemotePatch (lodashSet remote (splitPath k) v) rest from rfl]
      rw [ih (lodashSet remote (splitPath k) v)
        (fun kw hw => hsingle kw (List.mem_cons_of_mem _ hw)) hout.2]
      rw [hsingle (k, v) (List.mem_cons_self _ _)]
      exact lodashGet_lodashSet_single_ne remote k f v hout.1

theorem applyRemotePatch_get (patch : List (String × Value)) (rfs : List (String × Value))
    (k : String) (v : Value)
    (hsingle : ∀ kv ∈ patch, splitPath kv.1 = [kv.1])
    (hnd : (patch.map Prod.fst).Nodup)
    (hm : (k, v) ∈ patch) :
    lodashGet (applyRemotePatch (.vObj rfs) patch) [k] = some v := by
  induction patch generalizing rfs with
  | nil => cases hm
  | cons kv rest ih =>
      obtain ⟨k', v'⟩ := kv
      simp only [List.map_cons, List.nodup_cons] at hnd
      simp only [applyRemotePatch, List.foldl_cons]
      rw [show List.foldl (fun acc kv => lodashSet acc (splitPath kv.1) kv.2)
        (lodashSet (.vObj rfs) (splitPath k') v') rest =
        applyRemotePatch (lodashSet (.vObj rfs) (splitPath k') v') rest from rfl]
      rw [hsingle (k', v') (List.mem_cons_self _ _), lodashSet_single]
      rcases List.mem_cons.mp hm with hm1 | hm1
      · obtain ⟨hk, hv⟩ : k = k' ∧ v = v' :=
          ⟨congrArg Prod.fst hm1, congrArg Prod.snd hm1⟩
        subst hk
        subst hv
        rw [applyRemotePatch_frame rest _ k
          (fun kw hw => hsingle kw (List.mem_cons_of_mem _ hw)) hnd.1]
        rw [lodashGet_single]
        exact lookupField_upsertField_self rfs k v
      · exact ih (upsertField rfs k' v')
          (fun kw hw => hsingle kw (List.mem_cons_of_mem _ hw)) hnd.2 hm1

theorem upsertPatch_not_mem (l : List (String × Option Value)) (k : String)
    (v : Option Value) (h : k ∉ l.map Prod.fst) : upsertPatch l k v = l ++ [(k, v)] := by
  induction l with
  | nil => rfl
  | cons kv rest ih =>
      obtain ⟨k', v'⟩ := kv
      simp only [List.map_cons, List.mem_cons, not_or] at h
      simp only [upsertPatch, if_neg (fun hh : k' = k => h.1 hh.symm), List.cons_append,
        List.cons.injEq, true_and]
      exact ih h.2

theorem buildSyncPatch_foldl (docData : Value) (keys : List String)
    (acc : List (String × Option Value))
    (hdisj : ∀ k ∈ keys, k ∉ acc.map Prod.fst) (hnd : keys.Nodup) :
    keys.foldl (fun all key => upsertPatch all key (lodashGet docData (splitPath key))) acc =
      acc ++ keys.map (fun k => (k, lodashGet docData (splitPath k))) := by
  induction keys generalizing acc with
  | nil => simp
  | cons k rest ih =>
      simp only [List.nodup_cons] at hnd
      simp only [List.foldl_cons, List.map_cons]
      rw [upsertPatch_not_mem acc k _ (hdisj k (List.mem_cons_self _ _))]
      rw [ih (acc ++ [(k, lodashGet docData (splitPath k))]) ?_ hnd.2]
      · simp
      · intro k2 hk2
        simp only [List.map_append, List.mem_append, List.map_cons, List.map_nil, not_or]
        refine ⟨hdisj k2 (List.mem_cons_of_mem _ hk2), ?_⟩
        simp only [List.mem_singleton]
        exact fun hh => hnd.1 (hh ▸ hk2)

theorem buildSyncPatch_eq_map (docData : Value) (keys : List String) (hnd : keys.Nodup) :
    buildSyncPatch docData keys =
      keys.map (fun k => (k, lodashGet docData (splitPath k))) := by
  unfold buildSyncPatch
  rw [buildSyncPatch_foldl docData keys [] (fun _ _ => List.not_mem_nil _) hnd]
  simp

theorem lookupPatch_map_self (g : String → Option Value) (keys : List String) (k : String)
    (hnd : keys.Nodup) (hm : k ∈ keys) :
    lookupPatch (keys.map (fun k => (k, g k))) k = some (g k) := by
  induction keys with
  | nil => cases hm
  | cons k' rest ih =>
      simp only [List.nodup_cons] at hnd
      simp only [List.map_cons, lookupPatch]
      by_cases hk : k' = k
      · rw [if_pos hk, hk]
      · rw [if_neg hk]
        rcases List.mem_cons.mp hm with hm1 | hm1
        · exact absurd hm1.symm hk
        · exact ih hnd.2 hm1

theorem lookupPatch_map_pair (l : List (String × Value)) (k : String) (v : Value)
    (hnd : (l.map Prod.fst).Nodup) (hm : (k, v) ∈ l) :
    lookupPatch (l.map (fun kv => (kv.1, some kv.2))) k = some (some v) := by
  induction l with
  | nil => cases hm
  | cons kv rest ih =>
      obtain ⟨k', v'⟩ := kv
      simp only [List.map_cons, List.nodup_cons] at hnd
      simp only [List.map_cons, lookupPatch]
      rcases List.mem_cons.mp hm with hm1 | hm1
      · obtain ⟨hk, hv⟩ : k = k' ∧ v = v' :=
          ⟨congrArg Prod.fst hm1, congrArg Prod.snd hm1⟩
        subst hk
        subst hv
        rw [if_pos rfl]
      · by_cases hk : k' = k
        · subst hk
          exact absurd (List.mem_map_of_mem Prod.fst hm1) hnd.1
        · rw [if_neg hk]
          exact ih hnd.2 hm1

/-! ## Supporting lemmas: bind runs -/

theorem docBindRun_of_initialised (opts : BindOptions) (o r : String)
    (events : List BindEvent) (st : BindState) (h : st.isInitialised = true) :
    (docBindRun opts o r st events).settled = st.settled ∧
    (docBindRun opts o r st events).settleCount = st.settleCount ∧
    (docBindRun opts o r st events).isInitialised = true := by
  induction events generalizing st with
  | nil => exact ⟨rfl, rfl, h⟩
  | cons e rest ih =>
      obtain ⟨h1, h2, h3, _⟩ := docBindStep_of_initialised opts o r st e h
      obtain ⟨i1, i2, i3⟩ := ih (docBindStep opts o r st e) h1
      exact ⟨i1.trans h2, i2.trans h3, i3⟩

theorem docBindStep_unsubCalls (opts : BindOptions) (o r : String) (st : BindState)
    (e : BindEvent) : (docBindStep opts o r st e).unsubCalls = st.unsubCalls := by
  cases e with
  | snap s =>
      show (handleDocSnapshotUpdate opts st s).unsubCalls = st.unsubCalls
      unfold handleDocSnapshotUpdate
      split
      · unfold bindResolve
        split <;> rfl
      · dsimp only
        split
        · split
          · unfold bindResolve
            split <;> rfl
          · rfl
        · unfold bindResolve
          split <;> rfl
  | err e =>
      show (handleError o r st e).unsubCalls = st.unsubCalls
      rw [handleError_eq]
      split <;> rfl

theorem docBindRun_unsubCalls (opts : BindOptions) (o r : String)
    (events : List BindEvent) (st : BindState) :
    (docBindRun opts o r st events).unsubCalls = st.unsubCalls := by
  induction events generalizing st with
  | nil => rfl
  | cons e rest ih =>
      exact (ih (docBindStep opts o r st e)).trans (docBindStep_unsubCalls opts o r st e)

theorem docBindRun_registry_none (opts : BindOptions) (o r : String)
    (events : List BindEvent) (st : BindState) (key : String)
    (h : regLookup st.registry key = none) :
    regLookup (docBindRun opts o r st events).registry key = none := by
  induction events generalizing st with
  | nil => exact h
  | cons e rest ih =>
      exact ih (docBindStep opts o r st e) (docBindStep_registry_none opts o r st e key h)

theorem docBindRun_err_registry (opts : BindOptions) (o r : String) (e : String)
    (events : List BindEvent) (st : BindState)
    (hnd : (st.registry.map Prod.fst).Nodup) (hmem : BindEvent.err e ∈ events) :
    regLookup (docBindRun opts o r st events).registry (getStoreKey o r) = none := by
  induction events generalizing st with
  | nil => cases hmem
  | cons ev rest ih =>
      rcases List.mem_cons.mp hmem with hm | hm
      · subst hm
        have hstep : regLookup (docBindStep opts o r st (.err e)).registry
            (getStoreKey o r) = none := by
          show regLookup (handleError o r st e).registry (getStoreKey o r) = none
          rw [handleError_eq]
          split <;> exact regLookup_remove_self st.registry o r hnd
        have hrun : docBindRun opts o r st (BindEvent.err e :: rest) =
            docBindRun opts o r (docBindStep opts o r st (.err e)) rest := rfl
        rw [hrun]
        exact docBindRun_registry_none opts o r rest _ _ hstep
      · exact ih (docBindStep opts o r st ev) (docBindStep_registry_nodup opts o r st ev hnd) hm

theorem bindResolve_fieldState (st : BindState) (v : Value) :
    (bindResolve st v).fieldState = st.fieldState ∧
    (bindResolve st v).patchCount = st.patchCount := by
  unfold bindResolve
  split <;> exact ⟨rfl, rfl⟩

theorem handleDocSnapshotUpdate_mutates (opts : BindOptions) (st : BindState) (s : DocSnap)
    (hs : s.exist = true) :
    (handleDocSnapshotUpdate opts st s).fieldState =
      objAssign st.fieldState (makeDocumentData s) ∧
    (handleDocSnapshotUpdate opts st s).patchCount = st.patchCount + 1 := by
  unfold handleDocSnapshotUpdate
  rw [hs]
  rw [if_neg (fun hh : (true : Bool) = false => by cases hh)]
  dsimp only
  split
  · split
    · exact bindResolve_fieldState _ _
    · exact ⟨rfl, rfl⟩
  · exact bindResolve_fieldState _ _

theorem handleDocSnapshotUpdate_first (opts : BindOptions) (st : BindState) (s : DocSnap)
    (hinit : st.isInitialised = false) (hafter : opts.afterUpdate = none) :
    (handleDocSnapshotUpdate opts st s).settled =
      some (.resolved (if s.exist then makeDocumentData s else .vBool false)) ∧
    (handleDocSnapshotUpdate opts st s).settleCount = st.settleCount + 1 ∧
    (handleDocSnapshotUpdate opts st s).isInitialised = true := by
  unfold handleDocSnapshotUpdate
  cases hex : s.exist with
  | false =>
      rw [if_pos rfl]
      unfold bindResolve
      rw [hinit]
      simp
  | true =>
      rw [if_neg (fun hh : (true : Bool) = false => by cases hh)]
      dsimp only
      rw [hafter]
      unfold bindResolve
      rw [hinit]
      simp

theorem collBindStep_of_initialised (o r : String) (st : CollBindState)
    (e : CollBindEvent) (h : st.isInitialised = true) :
    (collBindStep o r st e).isInitialised = true ∧
    (collBindStep o r st e).settled = st.settled ∧
    (collBindStep o r st e).settleCount = st.settleCount := by
  cases e with
  | snap changes =>
      simp only [collBindStep]
      unfold handleCollectionSnapshotUpdate
      dsimp only
      rw [if_pos h]
      exact ⟨h, rfl, rfl⟩
  | err e =>
      simp only [collBindStep]
      rw [if_pos h]
      exact ⟨h, rfl, rfl⟩

theorem collBindRun_of_initialised (o r : String) (events : List CollBindEvent)
    (st : CollBindState) (h : st.isInitialised = true) :
    (collBindRun o r st events).settled = st.settled ∧
    (collBindRun o r st events).settleCount = st.settleCount ∧
    (collBindRun o r st events).isInitialised = true := by
  induction events generalizing st with
  | nil => exact ⟨rfl, rfl, h⟩
  | cons e rest ih =>
      obtain ⟨h1, h2, h3⟩ := collBindStep_of_initialised o r st e h
      obtain ⟨i1, i2, i3⟩ := ih (collBindStep o r st e) h1
      exact ⟨i1.trans h2, i2.trans h3, i3⟩

theorem handleCollectionSnapshotUpdate_first (st : CollBindState) (changes : List DocChange)
    (hinit : st.isInitialised = false) :
    (handleCollectionSnapshotUpdate st changes).settled =
      some (.resolved (applyDocChanges st.coll changes)) ∧
    (handleCollectionSnapshotUpdate st changes).settleCount = st.settleCount + 1 ∧
    (handleCollectionSnapshotUpdate st changes).isInitialised = true := by
  unfold handleCollectionSnapshotUpdate
  dsimp only
  have hne : ¬(st.isInitialised = true) := by
    rw [hinit]
    exact fun hh => nomatch hh
  rw [if_neg hne]
  exact ⟨rfl, rfl, rfl⟩

/-! ## Claim theorems -/

/-- C3: for every document state `doc` and field path `p` present on `doc`,
if schema validation of the prospective write `update(doc, p, v)` fails
(the call reaches the validation step — the value differs from the current
one — and the validator rejects the clone), then `doc` after the call
deep-equals `doc` before the call, the validation-failure callback is
invoked with `(storeId, p, errorMessage)`, and the call resolves `false`
rather than rejecting. -/
theorem C3_update_validation_failure_atomic (ctx : StoreCtx) (doc : Value)
    (p : List String) (v : Value) (shouldSync : Bool) (msg : String)
    (hpath : lodashHas doc p = true)
    (hchanged : lodashGet doc p ≠ some v)
    (hval : ctx.validateAt p (lodashSet doc p v) = .error msg) :
    updateAction ctx doc p v shouldSync =
      { object := doc, ret := .ok false,
        log := { errorCalls := [(ctx.storeId, p, msg)] } } := by
  unfold updateAction _update
  rw [hpath]
  rw [if_neg (fun hh : (true : Bool) = false => nomatch hh)]
  dsimp only
  rw [if_neg hchanged, hval]

/-- Witness for C3 at the test schema scenario: updating `testValue` to 999
(out of validation range) resolves `false`, fires the failure callback with
the message, and leaves the document unchanged. -/
theorem C3_witness :
    lodashHas docW ["testValue"] = true ∧
    lodashGet docW ["testValue"] ≠ some (.vNum 999) ∧
    ctxFail.validateAt ["testValue"] (lodashSet docW ["testValue"] (.vNum 999)) =
      .error "validation failed" ∧
    updateAction ctxFail docW ["testValue"] (.vNum 999) false =
      { object := docW, ret := .ok false,
        log := { errorCalls := [("test", ["testValue"], "validation failed")] } } :=
  ⟨by decide, by decide, by rfl,
    C3_update_validation_failure_atomic ctxFail docW ["testValue"] (.vNum 999) false
      "validation failed" (by decide) (by decide) (by rfl)⟩

/-- C4 (amended): for the store's own document state (the document that
`$get` reads), a field path `p` present on it, and a value `v` deep-equal
to the current value at `p`, `update` returns `false` and has no further
effect — the document is unchanged, no validation callback fires, and no
remote sync occurs.  The restriction to the store's own document is forced
by the counterexample: the equality pre-check of `_update` reads
`this.$get(path)` from `this.doc`, not from the object passed in. -/
theorem C4_update_idempotent_amended (ctx : StoreCtx) (doc : Value) (p : List String)
    (v : Value) (shouldSync : Bool)
    (hpath : lodashHas doc p = true)
    (heq : lodashGet doc p = some v) :
    updateAction ctx doc p v shouldSync = { object := doc, ret := .ok false, log := {} } := by
  unfold updateAction _update
  rw [hpath]
  rw [if_neg (fun hh : (true : Bool) = false => nomatch hh)]
  dsimp only
  rw [if_pos heq]

/-- Counterexample for C4 as stated: `_update` called on a document state
other than the store's own (here a collection item, as `$updateDoc` does)
with a value equal to that document's current value at the path is not
short-circuited, because the equality pre-check reads `this.doc`: the call
resolves `true`, fires the success callback, and triggers a sync. -/
theorem C4_counterexample :
    lodashHas objC4 ["x"] = true ∧
    lodashGet objC4 ["x"] = some (.vNum 2) ∧
    (_update ctxOk storeDocC4 objC4 ["x"] (.vNum 2) true).ret = .ok true ∧
    (_update ctxOk storeDocC4 objC4 ["x"] (.vNum 2) true).ret ≠ .ok false ∧
    (_update ctxOk storeDocC4 objC4 ["x"] (.vNum 2) true).log.successCalls =
      [("test", ["x"])] ∧
    (_update ctxOk storeDocC4 objC4 ["x"] (.vNum 2) true).log.syncCalls = [["x"]] := by
  decide

/-- Witness for the amended C4: re-updating `testValue` to its current
value 50 on the store document resolves `false` with no effect. -/
theorem C4_witness :
    lodashHas docW ["testValue"] = true ∧
    lodashGet docW ["testValue"] = some (.vNum 50) ∧
    updateAction ctxOk docW ["testValue"] (.vNum 50) true =
      { object := docW, ret := .ok false, log := {} } :=
  ⟨by decide, by decide,
    C4_update_idempotent_amended ctxOk docW ["testValue"] (.vNum 50) true
      (by decide) (by decide)⟩

/-- C10: if, after schema validation succeeds and the new value has been
applied to the live document state, the validation-success handler or the
triggered remote sync throws, then `update` resolves `false` and invokes
the validation-error handler even though the document state was already
mutated — so a `false` return from `update` does not imply the document
state is unchanged. -/
theorem C10_update_false_after_mutation (ctx : StoreCtx) (doc : Value) (p : List String)
    (v : Value) (shouldSync : Bool) (e : String)
    (hpath : lodashHas doc p = true)
    (hchanged : lodashGet doc p ≠ some v)
    (hval : ctx.validateAt p (lodashSet doc p v) = .ok ())
    (hcase : ctx.onSuccessResult = .error e ∨
      (ctx.onSuccessResult = .ok () ∧ shouldSync = true ∧ ctx.syncResult = .error e)) :
    (updateAction ctx doc p v shouldSync).ret = .ok false ∧
    (updateAction ctx doc p v shouldSync).object = lodashSet doc p v ∧
    lodashGet (updateAction ctx doc p v shouldSync).object p = some v ∧
    (updateAction ctx doc p v shouldSync).object ≠ doc ∧
    (updateAction ctx doc p v shouldSync).log.errorCalls = [(ctx.storeId, p, e)] ∧
    (updateAction ctx doc p v shouldSync).log.successCalls = [(ctx.storeId, p)] := by
  have hset : lodashGet (lodashSet doc p v) p = some v :=
    lodashGet_lodashSet_self doc p v hpath
  have hne : lodashSet doc p v ≠ doc := by
    intro hh
    apply hchanged
    rw [← hh]
    exact hset
  unfold updateAction _update
  rw [hpath]
  rw [if_neg (fun hh : (true : Bool) = false => nomatch hh)]
  dsimp only
  rw [if_neg hchanged, hval]
  rcases hcase with hc | ⟨hc1, hc2, hc3⟩
  · rw [hc]
    exact ⟨rfl, rfl, hset, hne, rfl, rfl⟩
  · rw [hc1, hc2, if_pos rfl, hc3]
    exact ⟨rfl, rfl, hset, hne, rfl, rfl⟩

/-- Witness for C10: a success handler that throws turns a validated,
already-applied write into a `false` resolution with the error callback
fired and the document left mutated. -/
theorem C10_witness :
    lodashHas docW ["testValue"] = true ∧
    lodashGet docW ["testValue"] ≠ some (.vNum 60) ∧
    ctxThrow.validateAt ["testValue"] (lodashSet docW ["testValue"] (.vNum 60)) = .ok () ∧
    ((updateAction ctxThrow docW ["testValue"] (.vNum 60) false).ret = .ok false ∧
     (updateAction ctxThrow docW ["testValue"] (.vNum 60) false).object =
       lodashSet docW ["testValue"] (.vNum 60) ∧
     lodashGet (updateAction ctxThrow docW ["testValue"] (.vNum 60) false).object
       ["testValue"] = some (.vNum 60) ∧
     (updateAction ctxThrow docW ["testValue"] (.vNum 60) false).object ≠ docW ∧
     (updateAction ctxThrow docW ["testValue"] (.vNum 60) false).log.errorCalls =
       [("test", ["testValue"], "success handler failed")] ∧
     (updateAction ctxThrow docW ["testValue"] (.vNum 60) false).log.successCalls =
       [("test", ["testValue"])]) :=
  ⟨by decide, by decide, by rfl,
    C10_update_false_after_mutation ctxThrow docW ["testValue"] (.vNum 60) false
      "success handler failed" (by decide) (by decide) (by rfl) (Or.inl rfl)⟩

/-- C9: for every document state whose array at `path` does not contain
`x`, calling `arrayUnion(doc, path, x)` twice with the same `x` yields the
same final array as calling it once: the first call appends `x` (the array
becomes exactly the old array with `x` appended, so values already
duplicated in it are preserved, never deduplicated), and the second call
leaves the array unchanged and resolves `false`. -/
theorem C9_arrayUnion_idempotent (ctx : StoreCtx) (doc : Value) (p : List String)
    (x : Value) (arr : List Value) (shouldSync : Bool)
    (hget : lodashGet doc p = some (.vArr arr))
    (hx : x ∉ arr)
    (hval : ctx.validateAt p (lodashSet doc p (.vArr (arr ++ [x]))) = .ok ())
    (hok : ctx.onSuccessResult = .ok ())
    (hsync : ctx.syncResult = .ok ()) :
    (arrayUnion ctx doc p x shouldSync).ret = .ok true ∧
    (arrayUnion ctx doc p x shouldSync).object = lodashSet doc p (.vArr (arr ++ [x])) ∧
    lodashGet (arrayUnion ctx doc p x shouldSync).object p = some (.vArr (arr ++ [x])) ∧
    arrayUnion ctx (arrayUnion ctx doc p x shouldSync).object p x shouldSync =
      { object := (arrayUnion ctx doc p x shouldSync).object, ret := .ok false,
        log := {} } := by
  have hpath : lodashHas doc p = true := by
    unfold lodashHas
    rw [hget]
    rfl
  have hlen : arr ++ [x] ≠ arr := by
    intro hh
    have hl := congrArg List.length hh
    simp at hl
  have harrne : Value.vArr (arr ++ [x]) ≠ .vArr arr :=
    fun hh => hlen (Value.vArr.inj hh)
  have hchanged : lodashGet doc p ≠ some (.vArr (arr ++ [x])) := by
    rw [hget]
    intro hh
    exact harrne (congrArg Value.vArr (Value.vArr.inj (Option.some.inj hh)).symm)
  have hfirst : arrayUnion ctx doc p x shouldSync =
      updateAction ctx doc p (.vArr (arr ++ [x])) shouldSync := by
    unfold arrayUnion arrayUpdate
    rw [hget]
    dsimp only
    rw [if_neg hx, if_neg harrne]
  have hupd : (updateAction ctx doc p (.vArr (arr ++ [x])) shouldSync).ret = .ok true ∧
      (updateAction ctx doc p (.vArr (arr ++ [x])) shouldSync).object =
        lodashSet doc p (.vArr (arr ++ [x])) := by
    unfold updateAction _update
    rw [hpath]
    rw [if_neg (fun hh : (true : Bool) = false => nomatch hh)]
    dsimp only
    rw [if_neg hchanged, hval, hok]
    cases shouldSync with
    | true =>
        rw [if_pos rfl, hsync]
        exact ⟨rfl, rfl⟩
    | false =>
        rw [if_neg Bool.false_ne_true]
        exact ⟨rfl, rfl⟩
  have hobj : (arrayUnion ctx doc p x shouldSync).object =
      lodashSet doc p (.vArr (arr ++ [x])) := by
    rw [hfirst]
    exact hupd.2
  have hget₁ : lodashGet (arrayUnion ctx doc p x shouldSync).object p =
      some (.vArr (arr ++ [x])) := by
    rw [hobj]
    exact lodashGet_lodashSet_self doc p _ hpath
  refine ⟨by rw [hfirst]; exact hupd.1, hobj, hget₁, ?_⟩
  set d1 := (arrayUnion ctx doc p x shouldSync).object with hd1
  unfold arrayUnion arrayUpdate
  rw [hget₁]
  dsimp only
  rw [if_pos (List.mem_append.mpr (Or.inr (List.mem_singleton_self x)))]
  rw [if_pos rfl]

/-- Witness for C9 on a two-element array: the first union appends 3, the
second is a no-op resolving `false`. -/
theorem C9_witness :
    lodashGet docArr ["numbers"] = some (.vArr [.vNum 1, .vNum 2]) ∧
    (.vNum 3) ∉ ([.vNum 1, .vNum 2] : List Value) ∧
    ((arrayUnion ctxOk docArr ["numbers"] (.vNum 3) false).ret = .ok true ∧
     (arrayUnion ctxOk docArr ["numbers"] (.vNum 3) false).object =
       lodashSet docArr ["numbers"] (.vArr [.vNum 1, .vNum 2, .vNum 3]) ∧
     lodashGet (arrayUnion ctxOk docArr ["numbers"] (.vNum 3) false).object ["numbers"] =
       some (.vArr [.vNum 1, .vNum 2, .vNum 3]) ∧
     arrayUnion ctxOk (arrayUnion ctxOk docArr ["numbers"] (.vNum 3) false).object
         ["numbers"] (.vNum 3) false =
       { object := (arrayUnion ctxOk docArr ["numbers"] (.vNum 3) false).object,
         ret := .ok false, log := {} }) :=
  ⟨by decide, by decide,
    C9_arrayUnion_idempotent ctxOk docArr ["numbers"] (.vNum 3) [.vNum 1, .vNum 2] false
      (by decide) (by decide) (by rfl) (by rfl) (by rfl)⟩

/-- C6 (amended): a proxy read of `p` returns the document state's value of
`p` whenever that value is truthy, and otherwise falls through to the store
instance's own property (the `get` handler tests `store.doc[prop]` for
truthiness, not declaredness); a proxy write to `p` writes through to the
document state whenever the document's value at `p` is defined, and
otherwise writes onto the store instance. -/
theorem C6_proxy_precedence_amended (doc : Value) (props : List (String × Value))
    (p : String) (v w : Value) :
    (getProp doc p = some w →
      ((truthy w = true → proxyGet doc props p = some w) ∧
       (truthy w = false → proxyGet doc props p = lookupField props p) ∧
       proxySet doc props p v = (setProp doc p v, props))) ∧
    (getProp doc p = none →
      (proxyGet doc props p = lookupField props p ∧
       proxySet doc props p v = (doc, upsertField props p v))) := by
  constructor
  · intro hw
    refine ⟨?_, ?_, ?_⟩
    · intro ht
      unfold proxyGet
      rw [hw]
      dsimp only
      rw [if_pos ht]
    · intro hf
      unfold proxyGet
      rw [hw]
      dsimp only
      rw [if_neg (by rw [hf]; exact Bool.false_ne_true)]
    · unfold proxySet
      rw [hw]
  · intro hn
    constructor
    · unfold proxyGet
      rw [hn]
    · unfold proxySet
      rw [hn]

/-- Counterexample for C6 as stated: the document declares `muted` with the
falsy value `false`, yet the proxy read returns the store instance's own
property (7), not the document's value. -/
theorem C6_counterexample :
    getProp (.vObj [("muted", .vBool false)]) "muted" = some (.vBool false) ∧
    proxyGet (.vObj [("muted", .vBool false)]) [("muted", .vNum 7)] "muted" =
      some (.vNum 7) ∧
    proxyGet (.vObj [("muted", .vBool false)]) [("muted", .vNum 7)] "muted" ≠
      some (.vBool false) := by
  decide

/-- Witness for the amended C6 at a truthy document field and an undeclared
field. -/
theorem C6_witness :
    (getProp (.vObj [("title", .vStr "hello")]) "title" = some (.vStr "hello") →
      ((truthy (.vStr "hello") = true →
        proxyGet (.vObj [("title", .vStr "hello")]) [("extraValue", .vNum 200)] "title" =
          some (.vStr "hello")) ∧
       (truthy (.vStr "hello") = false →
        proxyGet (.vObj [("title", .vStr "hello")]) [("extraValue", .vNum 200)] "title" =
          lookupField [("extraValue", .vNum 200)] "title") ∧
       proxySet (.vObj [("title", .vStr "hello")]) [("extraValue", .vNum 200)] "title"
           (.vStr "x") =
         (setProp (.vObj [("title", .vStr "hello")]) "title" (.vStr "x"),
          [("extraValue", .vNum 200)]))) ∧
    (getProp (.vObj [("title", .vStr "hello")]) "title" = none →
      (proxyGet (.vObj [("title", .vStr "hello")]) [("extraValue", .vNum 200)] "title" =
        lookupField [("extraValue", .vNum 200)] "title" ∧
       proxySet (.vObj [("title", .vStr "hello")]) [("extraValue", .vNum 200)] "title"
           (.vStr "x") =
         ((.vObj [("title", .vStr "hello")]),
          upsertField [("extraValue", .vNum 200)] "title" (.vStr "x")))) :=
  C6_proxy_precedence_amended (.vObj [("title", .vStr "hello")])
    [("extraValue", .vNum 200)] "title" (.vStr "x") (.vStr "hello")

/-- C2 (amended): starting from the empty collection state, the change
events `added(a, 0); added(b, 1); removed(a, oldIndex 0)` yield a sequence
containing exactly the document `b` at position 0, and an id lookup with
exactly one entry for `b`; the tracked index recorded on that document is
still 1 — its index at insertion time — because removal splices the
sequence but does not recompute the `__index` fields. -/
theorem C2_collection_reconciliation_amended :
    c2Result.seq = [docBFinal] ∧
    c2Result.byId = [("b", docBFinal)] ∧
    getProp docBFinal "__id" = some (.vStr "b") ∧
    getProp docBFinal "__index" = some (.vNum 1) := by
  decide

/-- Counterexample for C2 as stated: after the three events the lookup has
exactly one entry for `b`, but it carries tracked index 1, not 0. -/
theorem C2_counterexample :
    c2Result.seq.length = 1 ∧
    c2Result.byId.map Prod.fst = ["b"] ∧
    ((lookupField c2Result.byId "b").bind (fun d => getProp d "__index")) =
      some (.vNum 1) ∧
    ¬(((lookupField c2Result.byId "b").bind (fun d => getProp d "__index")) =
      some (.vNum 0)) := by
  decide

/-- C8 (amended): under store uses and initializer completions, the
lifecycle state of a store instance is monotonic along UNINITIALIZED,
INITIALIZING (spelled INITITALIZING in the source), INITIALIZED: along any
reset-free event sequence the rank never decreases, the initializer is
triggered at most once (exactly once as soon as the state has left
UNINITIALIZED), a caller observing a state other than UNINITIALIZED never
re-triggers the initializer, INITIALIZED is entered only after a
completion of the initializer's synchronous or deferred work, and
`isInitialized` holds only in the INITIALIZED state.  However, `$reset` —
reached through the public `$delete` action and through `_unbind` —
re-applies `state()` and moves the lifecycle back to UNINITIALIZED with
`isInitialized` false from any state, after which the next use re-triggers
the initializer; so the claim's strict monotonicity and exactly-once
transition hold only for runs containing no reset. -/
theorem C8_lifecycle_monotonic_amended (b : Bool) (events : List LifeEvent)
    (e : LifeEvent) (st : LifeSt)
    (hnr : ∀ e2 ∈ events, e2 ≠ LifeEvent.reset) (hne : e ≠ LifeEvent.reset) :
    (lifeRank (lifeRun b events)._initializedState ≤
      lifeRank (lifeStep b (lifeRun b events) e)._initializedState ∧
    (lifeRun b events).triggers ≤ 1 ∧
    ((lifeRun b events)._initializedState ≠ .UNINITIALIZED →
      (lifeRun b events).triggers = 1) ∧
    ((lifeRun b events)._initializedState = .INITIALIZED →
      1 ≤ (lifeRun b events).completions) ∧
    ((lifeRun b events).isInitialized = true →
      (lifeRun b events)._initializedState = .INITIALIZED) ∧
    ((lifeRun b events)._initializedState ≠ .UNINITIALIZED →
      (lifeStep b (lifeRun b events) .use).triggers = (lifeRun b events).triggers)) ∧
    ((lifeStep b st .reset)._initializedState = .UNINITIALIZED ∧
     (lifeStep b st .reset).isInitialized = false) := by
  have hinv := lifeRun_inv b events hnr
  obtain ⟨h1, h2, h3, h4, h5, h6⟩ := hinv
  refine ⟨⟨lifeStep_rank_mono b _ e ⟨h1, h2, h3, h4, h5, h6⟩ hne, ?_, ?_,
    fun hs => (h3 hs).2.2, h4, ?_⟩, ?_⟩
  · cases hs : (lifeRun b events)._initializedState with
    | UNINITIALIZED =>
        rw [(h1 hs).1]
        exact Nat.zero_le 1
    | INITITALIZING => exact le_of_eq (h2 hs).1
    | INITIALIZED => exact le_of_eq (h3 hs).1
  · intro hne2
    cases hs : (lifeRun b events)._initializedState with
    | UNINITIALIZED => exact absurd hs hne2
    | INITITALIZING => exact (h2 hs).1
    | INITIALIZED => exact (h3 hs).1
  · intro hne2
    rw [lifeStep_use_eq]
    rw [if_neg ?_]
    intro hg
    cases hs : (lifeRun b events)._initializedState with
    | UNINITIALIZED => exact hne2 hs
    | INITITALIZING => exact absurd hs hg.2
    | INITIALIZED =>
        have hinit := (h3 hs).2.1
        rw [hg.1] at hinit
        exact nomatch hinit
  · rw [lifeStep_reset_eq]
    exact ⟨rfl, rfl⟩

/-- Counterexample for C8 as stated: a store whose synchronous initializer
has run is INITIALIZED; a `$reset` (reached via `$delete` or `_unbind`)
re-applies `state()` and moves the lifecycle back to UNINITIALIZED — the
state regresses — and the next use of the store re-triggers the
initializer, so the transition out of UNINITIALIZED happens twice. -/
theorem C8_counterexample :
    (lifeRun true [LifeEvent.use])._initializedState = .INITIALIZED ∧
    (lifeRun true [LifeEvent.use, LifeEvent.reset])._initializedState =
      .UNINITIALIZED ∧
    lifeRank (lifeRun true [LifeEvent.use, LifeEvent.reset])._initializedState <
      lifeRank (lifeRun true [LifeEvent.use])._initializedState ∧
    (lifeRun true [LifeEvent.use]).triggers = 1 ∧
    (lifeRun true [LifeEvent.use, LifeEvent.reset, LifeEvent.use]).triggers = 2 := by
  decide

/-- Witness for the amended C8 at a deferred reset-free run: one caller
`use` followed by the initializer promise resolving, probed with another
`use` event, plus the reset effect at the initial state. -/
theorem C8_witness :
    ((∀ e2 ∈ [LifeEvent.use, LifeEvent.complete], e2 ≠ LifeEvent.reset) ∧
      LifeEvent.use ≠ LifeEvent.reset) ∧
    ((lifeRank (lifeRun false [LifeEvent.use, LifeEvent.complete])._initializedState ≤
      lifeRank (lifeStep false (lifeRun false [LifeEvent.use, LifeEvent.complete])
        LifeEvent.use)._initializedState ∧
    (lifeRun false [LifeEvent.use, LifeEvent.complete]).triggers ≤ 1 ∧
    ((lifeRun false [LifeEvent.use, LifeEvent.complete])._initializedState ≠
        .UNINITIALIZED →
      (lifeRun false [LifeEvent.use, LifeEvent.complete]).triggers = 1) ∧
    ((lifeRun false [LifeEvent.use, LifeEvent.complete])._initializedState =
        .INITIALIZED →
      1 ≤ (lifeRun false [LifeEvent.use, LifeEvent.complete]).completions) ∧
    ((lifeRun false [LifeEvent.use, LifeEvent.complete]).isInitialized = true →
      (lifeRun false [LifeEvent.use, LifeEvent.complete])._initializedState =
        .INITIALIZED) ∧
    ((lifeRun false [LifeEvent.use, LifeEvent.complete])._initializedState ≠
        .UNINITIALIZED →
      (lifeStep false (lifeRun false [LifeEvent.use, LifeEvent.complete])
          LifeEvent.use).triggers =
        (lifeRun false [LifeEvent.use, LifeEvent.complete]).triggers)) ∧
    ((lifeStep false lifeInit LifeEvent.reset)._initializedState = .UNINITIALIZED ∧
     (lifeStep false lifeInit LifeEvent.reset).isInitialized = false)) :=
  ⟨⟨by decide, by decide⟩,
    C8_lifecycle_monotonic_amended false [LifeEvent.use, LifeEvent.complete]
      LifeEvent.use lifeInit (by decide) (by decide)⟩

theorem mem_keys_regInsert (reg : Registry) (key f : String) (it : RegItem)
    (h : f ∈ (regInsert reg key it).map Prod.fst) :
    f ∈ reg.map Prod.fst ∨ f = key := by
  induction reg with
  | nil =>
      simp [regInsert] at h
      exact Or.inr h
  | cons kv rest ih =>
      obtain ⟨k', it'⟩ := kv
      by_cases hk : k' = key
      · simp only [regInsert, if_pos hk, List.map_cons, List.mem_cons] at h
        rcases h with h | h
        · exact Or.inl (by simp [h])
        · exact Or.inl (by simp [h])
      · simp only [regInsert, if_neg hk, List.map_cons, List.mem_cons] at h
        rcases h with h | h
        · exact Or.inl (by simp [h])
        · rcases ih h with h2 | h2
          · exact Or.inl (by simp [h2])
          · exact Or.inr h2

theorem regKeys_nodup_storeReg (reg : Registry) (id name : String) (unsub : Nat)
    (kind : RefKind) (h : (reg.map Prod.fst).Nodup) :
    ((storeReg reg id name unsub kind).map Prod.fst).Nodup := by
  unfold storeReg
  induction reg with
  | nil => simp [regInsert]
  | cons kv rest ih =>
      obtain ⟨k', it'⟩ := kv
      simp only [List.map_cons, List.nodup_cons] at h
      by_cases hk : k' = getStoreKey id name
      · simp only [regInsert, if_pos hk, List.map_cons, List.nodup_cons]
        exact ⟨h.1, h.2⟩
      · simp only [regInsert, if_neg hk, List.map_cons, List.nodup_cons]
        refine ⟨fun hm => ?_, ih h.2⟩
        rcases mem_keys_regInsert rest (getStoreKey id name) k' _ hm with h2 | h2
        · exact h.1 h2
        · exact hk h2

/-- C1 (amended): for a bind whose subscription delivers at least one
snapshot (and whose `afterUpdate` hook, if any, does not throw), the
returned promise settles exactly once — it resolves with the materialized
value of the first snapshot (for a document bind: the materialized document
when it exists, `false` when it does not; for a collection bind: the
collection state reconciled from the first change feed) and no later
delivery resolves or rejects it again.  Every later snapshot that reports
an existing document mutates the bound state in place by merging the
materialized document into it; a later snapshot reporting a non-existent
document performs no mutation (the claim's "every later snapshot mutates"
is amended to this). -/
theorem C1_bind_settles_once_amended
    (opts : BindOptions) (hafter : opts.afterUpdate = none)
    (reg : Registry) (ownerId refId : String) (unsub : Nat) (initField : Value)
    (s₀ : DocSnap) (rest : List BindEvent)
    (st : BindState) (hst : st.isInitialised = true) (s : DocSnap) (hs : s.exist = true)
    (initColl : CollState) (cs₀ : List DocChange) (crest : List CollBindEvent) :
    ((docBindRun opts ownerId refId (docBindInit reg ownerId refId unsub initField)
        (.snap s₀ :: rest)).settled =
      some (.resolved (if s₀.exist then makeDocumentData s₀ else .vBool false)) ∧
     (docBindRun opts ownerId refId (docBindInit reg ownerId refId unsub initField)
        (.snap s₀ :: rest)).settleCount = 1) ∧
    ((handleDocSnapshotUpdate opts st s).fieldState =
        objAssign st.fieldState (makeDocumentData s) ∧
     (handleDocSnapshotUpdate opts st s).patchCount = st.patchCount + 1 ∧
     (handleDocSnapshotUpdate opts st s).settled = st.settled ∧
     (handleDocSnapshotUpdate opts st s).settleCount = st.settleCount) ∧
    ((collBindRun ownerId refId (collBindInit reg ownerId refId unsub initColl)
        (.snap cs₀ :: crest)).settled =
      some (.resolved (applyDocChanges initColl cs₀)) ∧
     (collBindRun ownerId refId (collBindInit reg ownerId refId unsub initColl)
        (.snap cs₀ :: crest)).settleCount = 1) := by
  refine ⟨?_, ?_, ?_⟩
  · obtain ⟨hsettled, hcount, hinit⟩ := handleDocSnapshotUpdate_first opts
      (docBindInit reg ownerId refId unsub initField) s₀ rfl hafter
    have hrun : docBindRun opts ownerId refId
        (docBindInit reg ownerId refId unsub initField) (.snap s₀ :: rest) =
        docBindRun opts ownerId refId
          (handleDocSnapshotUpdate opts (docBindInit reg ownerId refId unsub initField) s₀)
          rest := rfl
    rw [hrun]
    obtain ⟨r1, r2, _⟩ := docBindRun_of_initialised opts ownerId refId rest _ hinit
    refine ⟨r1.trans hsettled, r2.trans ?_⟩
    rw [hcount]
    rfl
  · obtain ⟨m1, m2⟩ := handleDocSnapshotUpdate_mutates opts st s hs
    obtain ⟨_, i2, i3, _⟩ := handleDocSnapshotUpdate_of_initialised opts st s hst
    exact ⟨m1, m2, i2, i3⟩
  · obtain ⟨hsettled, hcount, hinit⟩ := handleCollectionSnapshotUpdate_first
      (collBindInit reg ownerId refId unsub initColl) cs₀ rfl
    have hrun : collBindRun ownerId refId
        (collBindInit reg ownerId refId unsub initColl) (.snap cs₀ :: crest) =
        collBindRun ownerId refId
          (handleCollectionSnapshotUpdate (collBindInit reg ownerId refId unsub initColl)
            cs₀) crest := rfl
    rw [hrun]
    obtain ⟨r1, r2, _⟩ := collBindRun_of_initialised ownerId refId crest _ hinit
    refine ⟨r1.trans hsettled, r2.trans ?_⟩
    rw [hcount]
    rfl

/-- Counterexample for C1 as stated: after a first existing snapshot has
resolved the promise, a later snapshot reporting a non-existent document
leaves the whole bind state unchanged — in particular it does not mutate
the bound state in place (no merge, no patch), contradicting the claim
that every later snapshot mutates the bound state. -/
theorem C1_counterexample :
    c1AfterFirst.settleCount = 1 ∧
    docBindStep {} "store1" "d1" c1AfterFirst (.snap snapGone) = c1AfterFirst ∧
    (docBindStep {} "store1" "d1" c1AfterFirst (.snap snapGone)).patchCount =
      c1AfterFirst.patchCount ∧
    (docBindStep {} "store1" "d1" c1AfterFirst (.snap snapGone)).fieldState =
      c1AfterFirst.fieldState := by
  decide

/-- Witness for the amended C1 at a concrete two-event document run and a
one-event collection run. -/
theorem C1_witness :
    (({} : BindOptions).afterUpdate = none ∧ c1AfterFirst.isInitialised = true ∧
      snapFirst.exist = true) ∧
    (((docBindRun {} "store1" "d1" (docBindInit [] "store1" "d1" 7 (.vObj []))
        (.snap snapFirst :: [.snap snapGone])).settled =
      some (.resolved (if snapFirst.exist then makeDocumentData snapFirst
        else .vBool false)) ∧
     (docBindRun {} "store1" "d1" (docBindInit [] "store1" "d1" 7 (.vObj []))
        (.snap snapFirst :: [.snap snapGone])).settleCount = 1) ∧
    ((handleDocSnapshotUpdate {} c1AfterFirst snapFirst).fieldState =
        objAssign c1AfterFirst.fieldState (makeDocumentData snapFirst) ∧
     (handleDocSnapshotUpdate {} c1AfterFirst snapFirst).patchCount =
        c1AfterFirst.patchCount + 1 ∧
     (handleDocSnapshotUpdate {} c1AfterFirst snapFirst).settled =
        c1AfterFirst.settled ∧
     (handleDocSnapshotUpdate {} c1AfterFirst snapFirst).settleCount =
        c1AfterFirst.settleCount) ∧
    ((collBindRun "store1" "d1" (collBindInit [] "store1" "d1" 7 { seq := [], byId := [] })
        (.snap [{ type := .added, doc := snapB, newIndex := 0, oldIndex := 0 }] :: [])).settled =
      some (.resolved (applyDocChanges { seq := [], byId := [] }
        [{ type := .added, doc := snapB, newIndex := 0, oldIndex := 0 }])) ∧
     (collBindRun "store1" "d1" (collBindInit [] "store1" "d1" 7 { seq := [], byId := [] })
        (.snap [{ type := .added, doc := snapB, newIndex := 0, oldIndex := 0 }] :: [])).settleCount = 1)) :=
  ⟨⟨rfl, by decide, rfl⟩,
    C1_bind_settles_once_amended {} rfl [] "store1" "d1" 7 (.vObj []) snapFirst
      [.snap snapGone] c1AfterFirst (by decide) snapFirst rfl
      { seq := [], byId := [] }
      [{ type := .added, doc := snapB, newIndex := 0, oldIndex := 0 }] []⟩

/-- C7 (amended): if the subscription errors after its first snapshot has
already been delivered, the bind promise is not rejected — it stays
resolved at the first snapshot's value; the error is logged, the
subscription's registry entry is removed, and the bound local state is left
at its last known-good value (the error handler never touches it).  The
unsubscribe function, however, is NOT invoked by the error handler — the
claim's "its unsubscribe function invoked" does not hold on the code. -/
theorem C7_error_after_first_snapshot_amended
    (opts : BindOptions) (hafter : opts.afterUpdate = none)
    (reg : Registry) (ownerId refId : String) (unsub : Nat) (initField : Value)
    (s₀ : DocSnap) (hs₀ : s₀.exist = true)
    (rest : List BindEvent) (e : String) (herr : BindEvent.err e ∈ rest)
    (hreg : (reg.map Prod.fst).Nodup)
    (st : BindState) (e₂ : String) :
    (docBindRun opts ownerId refId (docBindInit reg ownerId refId unsub initField)
      (.snap s₀ :: rest)).settled = some (.resolved (makeDocumentData s₀)) ∧
    (docBindRun opts ownerId refId (docBindInit reg ownerId refId unsub initField)
      (.snap s₀ :: rest)).settleCount = 1 ∧
    (docBindRun opts ownerId refId (docBindInit reg ownerId refId unsub initField)
      (.snap s₀ :: rest)).unsubCalls = 0 ∧
    regLookup (docBindRun opts ownerId refId (docBindInit reg ownerId refId unsub initField)
      (.snap s₀ :: rest)).registry (getStoreKey ownerId refId) = none ∧
    (handleError ownerId refId st e₂).fieldState = st.fieldState := by
  obtain ⟨hsettled, hcount, hinit⟩ := handleDocSnapshotUpdate_first opts
    (docBindInit reg ownerId refId unsub initField) s₀ rfl hafter
  rw [hs₀] at hsettled
  have hrun : docBindRun opts ownerId refId
      (docBindInit reg ownerId refId unsub initField) (.snap s₀ :: rest) =
      docBindRun opts ownerId refId
        (handleDocSnapshotUpdate opts (docBindInit reg ownerId refId unsub initField) s₀)
        rest := rfl
  rw [hrun]
  obtain ⟨r1, r2, _⟩ := docBindRun_of_initialised opts ownerId refId rest _ hinit
  refine ⟨r1.trans (by simpa using hsettled), r2.trans (by rw [hcount]; rfl), ?_, ?_, ?_⟩
  · rw [docBindRun_unsubCalls]
    have hu : (handleDocSnapshotUpdate opts
        (docBindInit reg ownerId refId unsub initField) s₀).unsubCalls =
        (docBindInit reg ownerId refId unsub initField).unsubCalls :=
      docBindStep_unsubCalls opts ownerId refId _ (.snap s₀)
    rw [hu]
    rfl
  · apply docBindRun_err_registry opts ownerId refId e rest _ _ herr
    have hr : (handleDocSnapshotUpdate opts
        (docBindInit reg ownerId refId unsub initField) s₀).registry =
        (docBindInit reg ownerId refId unsub initField).registry :=
      handleDocSnapshotUpdate_registry opts _ s₀
    rw [hr]
    exact regKeys_nodup_storeReg reg ownerId refId unsub .document hreg
  · rw [handleError_eq]
    split <;> rfl

/-- Counterexample for C7 as stated: after an existing first snapshot, a
listener error removes the registry entry and leaves the promise resolved
and the bound state intact, but the unsubscribe handle is never invoked
(zero invocations), contradicting "its unsubscribe function invoked". -/
theorem C7_counterexample :
    c7Final.unsubCalls = 0 ∧
    ¬(1 ≤ c7Final.unsubCalls) ∧
    regLookup c7Final.registry (getStoreKey "store1" "d1") = none ∧
    c7Final.settled = some (.resolved (makeDocumentData snapFirst)) ∧
    c7Final.settleCount = 1 ∧
    c7Final.fieldState = objAssign (.vObj []) (makeDocumentData snapFirst) := by
  decide

/-- Witness for the amended C7 at a concrete snapshot-then-error run. -/
theorem C7_witness :
    (({} : BindOptions).afterUpdate = none ∧ snapFirst.exist = true ∧
      BindEvent.err "listener failed" ∈ [BindEvent.err "listener failed"] ∧
      (([] : Registry).map Prod.fst).Nodup) ∧
    ((docBindRun {} "store1" "d1" (docBindInit [] "store1" "d1" 7 (.vObj []))
        (.snap snapFirst :: [.err "listener failed"])).settled =
      some (.resolved (makeDocumentData snapFirst)) ∧
     (docBindRun {} "store1" "d1" (docBindInit [] "store1" "d1" 7 (.vObj []))
        (.snap snapFirst :: [.err "listener failed"])).settleCount = 1 ∧
     (docBindRun {} "store1" "d1" (docBindInit [] "store1" "d1" 7 (.vObj []))
        (.snap snapFirst :: [.err "listener failed"])).unsubCalls = 0 ∧
     regLookup (docBindRun {} "store1" "d1" (docBindInit [] "store1" "d1" 7 (.vObj []))
        (.snap snapFirst :: [.err "listener failed"])).registry
        (getStoreKey "store1" "d1") = none ∧
     (handleError "store1" "d1" c1AfterFirst "x").fieldState =
        c1AfterFirst.fieldState) :=
  ⟨⟨rfl, rfl, List.mem_singleton_self _, List.nodup_nil⟩,
    C7_error_after_first_snapshot_amended {} rfl [] "store1" "d1" 7 (.vObj [])
      snapFirst rfl [.err "listener failed"] "listener failed"
      (List.mem_singleton_self _) List.nodup_nil c1AfterFirst "x"⟩

theorem map_fst_map_pairOpt (g : String → Option Value) (keys : List String) :
    (keys.map (fun k2 => (k2, g k2))).map Prod.fst = keys := by
  induction keys with
  | nil => rfl
  | cons k rest ih => simp [ih]

theorem map_fst_map_someSnd (l : List (String × Value)) :
    ((l.map (fun kv => (kv.1, some kv.2))).map Prod.fst) = l.map Prod.fst := by
  induction l with
  | nil => rfl
  | cons kv rest ih => simp [ih]

theorem updateDoc_frame (append : List (String × Value)) (rfsL : List (String × Value))
    (data : List (String × Option Value)) (f : String)
    (hallsome : ∀ kv ∈ data, Option.isSome kv.2 = true)
    (hsingleAll : ∀ f2 ∈ data.map Prod.fst, splitPath f2 = [f2])
    (hasingle : ∀ kv ∈ append, splitPath kv.1 = [kv.1])
    (hf1 : f ∉ data.map Prod.fst) (hf2 : f ∉ append.map Prod.fst) :
    lodashGet (_updateDoc append (.vObj rfsL) data) [f] = lodashGet (.vObj rfsL) [f] := by
  have hallsomeF := isSome_foldAppend append data hallsome
  unfold _updateDoc
  dsimp only
  rw [mapM_eq_stripPatch _ hallsomeF]
  show lodashGet (applyRemotePatch (.vObj rfsL)
    (stripPatch (append.foldl (fun all kv => upsertPatch all kv.1 (some kv.2)) data)))
    [f] = lodashGet (.vObj rfsL) [f]
  apply applyRemotePatch_frame
  · intro kv hkv
    have hkey := mem_key_of_mem_stripPatch _ kv.1 kv.2 (by
      obtain ⟨k1, v1⟩ := kv
      exact hkv)
    rcases mem_keys_foldAppend append data kv.1 hkey with hh | hh
    · exact hsingleAll kv.1 hh
    · obtain ⟨kw, hkw, hkeq⟩ := List.mem_map.mp hh
      exact hkeq ▸ hasingle kw hkw
  · intro hmem
    rw [keys_stripPatch _ hallsomeF] at hmem
    rcases mem_keys_foldAppend append data f hmem with hh | hh
    · exact hf1 hh
    · exact hf2 hh

theorem updateDoc_lookup (append : List (String × Value)) (rfsL : List (String × Value))
    (data : List (String × Option Value)) (k : String) (v : Value)
    (hallsome : ∀ kv ∈ data, Option.isSome kv.2 = true)
    (hnd : (data.map Prod.fst).Nodup)
    (hsingleAll : ∀ f2 ∈ data.map Prod.fst, splitPath f2 = [f2])
    (hasingle : ∀ kv ∈ append, splitPath kv.1 = [kv.1])
    (hlook : lookupPatch
      (append.foldl (fun all kv => upsertPatch all kv.1 (some kv.2)) data) k =
      some (some v)) :
    lodashGet (_updateDoc append (.vObj rfsL) data) [k] = some v := by
  have hallsomeF := isSome_foldAppend append data hallsome
  have hndF := nodup_keys_foldAppend append data hnd
  have hmem := mem_stripPatch_of_lookupPatch _ k v hlook
  unfold _updateDoc
  dsimp only
  rw [mapM_eq_stripPatch _ hallsomeF]
  show lodashGet (applyRemotePatch (.vObj rfsL)
    (stripPatch (append.foldl (fun all kv => upsertPatch all kv.1 (some kv.2)) data)))
    [k] = some v
  apply applyRemotePatch_get
  · intro kv hkv
    have hkey := mem_key_of_mem_stripPatch _ kv.1 kv.2 (by
      obtain ⟨k1, v1⟩ := kv
      exact hkv)
    rcases mem_keys_foldAppend append data kv.1 hkey with hh | hh
    · exact hsingleAll kv.1 hh
    · obtain ⟨kw, hkw, hkeq⟩ := List.mem_map.mp hh
      exact hkeq ▸ hasingle kw hkw
  · rw [keys_stripPatch _ hallsomeF]
    exact hndF
  · exact hmem

/-- C5: for every document state and every list of field paths, `sync(doc,
paths)` persists exactly the named fields — each named field's value is
read from the document at call time — plus the configured append-on-update
data computed at call time (which wins on a name collision), and never
touches remote fields not named; when no field paths are given (the empty
list; `keysToSync.reduce` makes the patch empty and `dataToSync` falls back
to the whole document), sync persists the whole document.  Stated here for
top-level field names on object documents, the shape every library call
site uses. -/
theorem C5_sync_persists_named_fields (append : List (String × Value))
    (rfsL dfsL : List (String × Value)) (keys : List String)
    (f k ka kd : String) (va vd : Value)
    (hknd : keys.Nodup)
    (hksingle : ∀ k2 ∈ keys, splitPath k2 = [k2])
    (hasingle : ∀ kv ∈ append, splitPath kv.1 = [kv.1])
    (hand : (append.map Prod.fst).Nodup)
    (hpresent : ∀ k2 ∈ keys, (lodashGet (.vObj dfsL) (splitPath k2)).isSome = true)
    (hdnd : (dfsL.map Prod.fst).Nodup)
    (hdsingle : ∀ kv ∈ dfsL, splitPath kv.1 = [kv.1])
    (hkeys : keys ≠ [])
    (hf1 : f ∉ keys) (hf2 : f ∉ append.map Prod.fst)
    (hk1 : k ∈ keys) (hk2 : k ∉ append.map Prod.fst)
    (ha : (ka, va) ∈ append)
    (hd1 : (kd, vd) ∈ dfsL) (hd2 : kd ∉ append.map Prod.fst) :
    lodashGet (_sync append (.vObj rfsL) (.vObj dfsL) keys) [f] =
      lodashGet (.vObj rfsL) [f] ∧
    lodashGet (_sync append (.vObj rfsL) (.vObj dfsL) keys) [k] =
      lodashGet (.vObj dfsL) (splitPath k) ∧
    lodashGet (_sync append (.vObj rfsL) (.vObj dfsL) keys) [ka] = some va ∧
    lodashGet (_sync append (.vObj rfsL) (.vObj dfsL) []) [kd] = some vd := by
  have hsync : _sync append (.vObj rfsL) (.vObj dfsL) keys =
      _updateDoc append (.vObj rfsL)
        (keys.map (fun k2 => (k2, lodashGet (.vObj dfsL) (splitPath k2)))) := by
    unfold _sync
    rw [buildSyncPatch_eq_map _ _ hknd]
    dsimp only
    rw [if_pos (by
      rw [List.length_map]
      exact List.length_pos.mpr hkeys)]
  have hdataKeys : ((keys.map (fun k2 => (k2, lodashGet (.vObj dfsL)
      (splitPath k2)))).map Prod.fst) = keys := map_fst_map_pairOpt _ keys
  have hallsome : ∀ kv ∈ keys.map (fun k2 => (k2, lodashGet (.vObj dfsL) (splitPath k2))),
      Option.isSome kv.2 = true := by
    intro kv hkv
    obtain ⟨k2, hk2, hkeq⟩ := List.mem_map.mp hkv
    rw [← hkeq]
    exact hpresent k2 hk2
  have hsingleAll : ∀ f2 ∈ ((keys.map (fun k2 => (k2, lodashGet (.vObj dfsL)
      (splitPath k2)))).map Prod.fst), splitPath f2 = [f2] := by
    rw [hdataKeys]
    exact hksingle
  have hnd2 : (((keys.map (fun k2 => (k2, lodashGet (.vObj dfsL)
      (splitPath k2)))).map Prod.fst)).Nodup := by
    rw [hdataKeys]
    exact hknd
  have hsync0 : _sync append (.vObj rfsL) (.vObj dfsL) [] =
      _updateDoc append (.vObj rfsL) (dfsL.map (fun kv => (kv.1, some kv.2))) := by
    unfold _sync buildSyncPatch
    dsimp only
    rfl
  have hallsome0 : ∀ kv ∈ dfsL.map (fun kv => (kv.1, some kv.2)),
      Option.isSome kv.2 = true := by
    intro kv hkv
    obtain ⟨kw, _, hkeq⟩ := List.mem_map.mp hkv
    rw [← hkeq]
    rfl
  have hsingle0 : ∀ f2 ∈ ((dfsL.map (fun kv => (kv.1, some kv.2))).map Prod.fst),
      splitPath f2 = [f2] := by
    rw [map_fst_map_someSnd]
    intro f2 hf2m
    obtain ⟨kw, hkw, hkeq⟩ := List.mem_map.mp hf2m
    exact hkeq ▸ hdsingle kw hkw
  have hnd0 : (((dfsL.map (fun kv => (kv.1, some kv.2))).map Prod.fst)).Nodup := by
    rw [map_fst_map_someSnd]
    exact hdnd
  refine ⟨?_, ?_, ?_, ?_⟩
  · rw [hsync]
    apply updateDoc_frame append rfsL _ f hallsome hsingleAll hasingle ?_ hf2
    rw [hdataKeys]
    exact hf1
  · rw [hsync]
    obtain ⟨vk, hvk⟩ := Option.isSome_iff_exists.mp (hpresent k hk1)
    rw [hvk]
    apply updateDoc_lookup append rfsL _ k vk hallsome hnd2 hsingleAll hasingle
    rw [lookupPatch_foldAppend_not_mem append _ k hk2]
    rw [lookupPatch_map_self (fun k2 => lodashGet (.vObj dfsL) (splitPath k2)) keys k
      hknd hk1]
    rw [hvk]
  · rw [hsync]
    apply updateDoc_lookup append rfsL _ ka va hallsome hnd2 hsingleAll hasingle
    exact lookupPatch_foldAppend_mem append _ ka va hand ha
  · rw [hsync0]
    apply updateDoc_lookup append rfsL _ kd vd hallsome0 hnd0 hsingle0 hasingle
    rw [lookupPatch_foldAppend_not_mem append _ kd hd2]
    exact lookupPatch_map_pair dfsL kd vd hdnd hd1

/-- Witness for C5: syncing only `title` updates `title` on the remote
document, leaves `keep` untouched, merges the call-time `updatedBy` audit
field; syncing with no named fields persists the whole document, e.g.
`testValue`. -/
theorem C5_witness :
    ((["title"] : List String).Nodup ∧
     (∀ k2 ∈ (["title"] : List String), splitPath k2 = [k2]) ∧
     (∀ kv ∈ appendW, splitPath kv.1 = [kv.1]) ∧
     (appendW.map Prod.fst).Nodup ∧
     (∀ k2 ∈ (["title"] : List String),
       (lodashGet (.vObj dfsW) (splitPath k2)).isSome = true) ∧
     (dfsW.map Prod.fst).Nodup ∧
     (∀ kv ∈ dfsW, splitPath kv.1 = [kv.1]) ∧
     (["title"] : List String) ≠ [] ∧
     "keep" ∉ (["title"] : List String) ∧
     "keep" ∉ appendW.map Prod.fst ∧
     "title" ∈ (["title"] : List String) ∧
     "title" ∉ appendW.map Prod.fst ∧
     ("updatedBy", Value.vStr "user2") ∈ appendW ∧
     ("testValue", Value.vNum 20) ∈ dfsW ∧
     "testValue" ∉ appendW.map Prod.fst) ∧
    (lodashGet (_sync appendW (.vObj rfsW) (.vObj dfsW) ["title"]) ["keep"] =
      lodashGet (.vObj rfsW) ["keep"] ∧
     lodashGet (_sync appendW (.vObj rfsW) (.vObj dfsW) ["title"]) ["title"] =
      lodashGet (.vObj dfsW) (splitPath "title") ∧
     lodashGet (_sync appendW (.vObj rfsW) (.vObj dfsW) ["title"]) ["updatedBy"] =
      some (.vStr "user2") ∧
     lodashGet (_sync appendW (.vObj rfsW) (.vObj dfsW) []) ["testValue"] =
      some (.vNum 20)) :=
  ⟨⟨by decide, by decide, by decide, by decide, by decide, by decide, by decide,
    by decide, by decide, by decide, by decide, by decide, by decide, by decide,
    by decide⟩,
   C5_sync_persists_named_fields appendW rfsW dfsW ["title"] "keep" "title"
     "updatedBy" "testValue" (.vStr "user2") (.vNum 20)
     (by decide) (by decide) (by decide) (by decide) (by decide) (by decide)
     (by decide) (by decide) (by decide) (by decide) (by decide) (by decide)
     (by decide) (by decide) (by decide)⟩
